import Mathlib

/-!
# Fibre Channel frame codec (`mdlayher/fibrechannel`)

A shallow embedding of `frame.go`, `header.go`, `fip/fip.go` and `fip/frame.go`, together
with the parts of the Go standard library they call (`encoding/binary` big-endian
accessors, `hash/crc32` IEEE checksum, slice primitives), followed by theorems about the
three codecs.

Conventions of the embedding:

* a Go `byte` is `Fin 256`, a `uint16` is `Fin 65536`, a `uint32` is `Fin 4294967296`;
  a `[]byte` is a `List Byte`, and `len`, indices and slice bounds are Go `int`s (`Int`);
* every indexing, slicing and `make` is bounds-checked like the Go run time does it; a
  failed check is the result `Err.Panic`;
* a method that assigns to its pointer receiver is a function from the receiver's state
  to the returned error (or value) paired with the receiver's final state (`Meth`), so
  that partial updates made before an error is returned remain observable; an early
  `if c { return err }` is `Meth.returnIf`; a method that only reads its receiver is a
  plain function;
* a write through a sub-slice `b[lo:hi]` is a write into `b` itself (`window`, `splice`).
-/

namespace Fibrechannel

/-! ## Go primitives -/

/-- Go `byte`. -/
abbrev Byte := Fin 256

/-- Go `uint16`. -/
abbrev U16 := Fin 65536

/-- Go `uint32`. -/
abbrev U32 := Fin 4294967296

/-- Outcomes other than success: the three error values the package returns
(`io.ErrUnexpectedEOF`, `ErrInvalidFrame`, `ErrInvalidCRC`) and a run-time panic
(index or slice bounds out of range, negative `make` length). -/
inductive Err
  | ErrUnexpectedEOF
  | ErrInvalidFrame
  | ErrInvalidCRC
  | Panic
  deriving DecidableEq

deriving instance DecidableEq for Except

/-- The conversion `byte(n)`: the low eight bits of `n`. -/
def toByte (n : Nat) : Byte := ⟨n % 256, Nat.mod_lt _ (by decide)⟩

/-- The conversion `uint16(n)`. -/
def toU16 (n : Nat) : U16 := ⟨n % 65536, Nat.mod_lt _ (by decide)⟩

/-- The conversion `uint32(n)`. -/
def toU32 (n : Nat) : U32 := ⟨n % 4294967296, Nat.mod_lt _ (by decide)⟩

/-- Go `len(b)`. -/
abbrev len (b : List Byte) : Int := b.length

/-- Go `make([]byte, n)`: `n` zero bytes; panics when `n` is negative. -/
def make (n : Int) : Except Err (List Byte) :=
  if 0 ≤ n then .ok (List.replicate n.toNat 0) else .error .Panic

/-- Go `b[i]` as a value; panics when `i` is out of range. -/
def index (b : List Byte) (i : Int) : Except Err Byte :=
  if 0 ≤ i then
    match b[i.toNat]? with
    | some v => .ok v
    | none => .error .Panic
  else .error .Panic

/-- Go `b[i] = v`; panics when `i` is out of range. -/
def store (b : List Byte) (i : Int) (v : Byte) : Except Err (List Byte) :=
  if 0 ≤ i ∧ i < len b then .ok (b.set i.toNat v) else .error .Panic

/-- Go `b[lo:hi]` as a value (the bytes seen through the window); panics unless
`0 ≤ lo ≤ hi ≤ len(b)` (every slice here has its capacity equal to its length). -/
def slice (b : List Byte) (lo hi : Int) : Except Err (List Byte) :=
  if 0 ≤ lo ∧ lo ≤ hi ∧ hi ≤ len b then .ok ((b.drop lo.toNat).take (hi - lo).toNat)
  else .error .Panic

/-- The effect on `b` of an operation that leaves the bytes `w` in the window `b[lo:hi]`:
the window shares the backing array of `b`. -/
def splice (b : List Byte) (lo hi : Int) (w : List Byte) : List Byte :=
  b.take lo.toNat ++ w ++ b.drop hi.toNat

/-- Go `copy(dst, src)`: the resulting contents of `dst`; `min(len(dst), len(src))` bytes
are copied, the rest of `dst` is kept. -/
def copy (dst src : List Byte) : List Byte :=
  src.take dst.length ++ dst.drop src.length

/-- A call `op(b[lo:hi], ...)` that writes through the window: the slice expression is
evaluated (it may panic), `op` runs on the bytes of the window, and the bytes it leaves
there become part of `b`. The result is the contents of `b` afterwards. -/
def window (b : List Byte) (lo hi : Int) (op : List Byte → Except Err (List Byte)) :
    Except Err (List Byte) := do
  let w ← slice b lo hi
  let w ← op w
  return splice b lo hi w

/-- Go `b[i] |= m`. -/
def orAssign (b : List Byte) (i : Int) (m : Byte) : Except Err (List Byte) := do
  let x ← index b i
  store b i (x ||| m)

/-- Go `if c { b[i] |= m }`: the contents of `b` afterwards. -/
def orAssignIf (c : Bool) (b : List Byte) (i : Int) (m : Byte) : Except Err (List Byte) :=
  if c then orAssign b i m else .ok b

/-! ## `encoding/binary`, big-endian -/

namespace BigEndian

/-- Go `binary.BigEndian.PutUint16(b, v)`: the resulting contents of `b`. -/
def PutUint16 (b : List Byte) (v : U16) : Except Err (List Byte) := do
  let _ ← index b 1
  let b ← store b 0 (toByte (v.val >>> 8))
  let b ← store b 1 (toByte v.val)
  return b

/-- Go `binary.BigEndian.PutUint32(b, v)`: the resulting contents of `b`. -/
def PutUint32 (b : List Byte) (v : U32) : Except Err (List Byte) := do
  let _ ← index b 3
  let b ← store b 0 (toByte (v.val >>> 24))
  let b ← store b 1 (toByte (v.val >>> 16))
  let b ← store b 2 (toByte (v.val >>> 8))
  let b ← store b 3 (toByte v.val)
  return b

/-- Go `binary.BigEndian.Uint16(b)`. -/
def Uint16 (b : List Byte) : Except Err U16 := do
  let _ ← index b 1
  let b1 ← index b 1
  let b0 ← index b 0
  return toU16 (b1.val ||| b0.val <<< 8)

/-- Go `binary.BigEndian.Uint32(b)`. -/
def Uint32 (b : List Byte) : Except Err U32 := do
  let _ ← index b 3
  let b3 ← index b 3
  let b2 ← index b 2
  let b1 ← index b 1
  let b0 ← index b 0
  return toU32 (b3.val ||| b2.val <<< 8 ||| b1.val <<< 16 ||| b0.val <<< 24)

end BigEndian

/-! ## `hash/crc32`

The generic (table-driven) implementation of the standard library:
`simplePopulateTable` and `simpleUpdate`. `ChecksumIEEE` computes the same function
whichever accelerated variant the platform selects. -/

namespace crc32

/-- The constant `crc32.IEEE`: the reversed IEEE 802.3 polynomial. -/
def IEEE : Nat := 0xedb88320

/-- One pass of the inner loop of `simplePopulateTable`. -/
def shiftStep (poly crc : Nat) : Nat :=
  if crc &&& 1 = 1 then (crc >>> 1) ^^^ poly else crc >>> 1

/-- The entry `t[i]` of the table built by `simplePopulateTable(poly, t)`. -/
def tableEntry (poly i : Nat) : Nat := (shiftStep poly)^[8] i

/-- The loop body of `simpleUpdate`: `crc = tab[byte(crc)^v] ^ (crc >> 8)`. -/
def updateByte (poly crc : Nat) (v : Byte) : Nat :=
  tableEntry poly ((toByte crc).val ^^^ v.val) ^^^ (crc >>> 8)

/-- Go `simpleUpdate(crc, tab, p)` for the table of `poly`; `^crc` on a `uint32` is the
exclusive or with `0xffffffff`. -/
def simpleUpdate (crc : Nat) (poly : Nat) (p : List Byte) : Nat :=
  let crc := crc ^^^ 0xffffffff
  let crc := p.foldl (updateByte poly) crc
  crc ^^^ 0xffffffff

/-- Go `crc32.ChecksumIEEE(data)`, that is `Update(0, IEEETable, data)`. -/
def ChecksumIEEE (data : List Byte) : U32 := toU32 (simpleUpdate 0 IEEE data)

end crc32

/-! ## Methods with a pointer receiver -/

/-- A method body over a receiver of type `σ`: from the receiver's state to the outcome
and the receiver's state when the method stops. -/
def Meth (σ α : Type) : Type := σ → Except Err α × σ

namespace Meth

/-- Sequencing: an error or panic stops the method and keeps the receiver as it is then. -/
def andThen {σ α β : Type} (m : Meth σ α) (k : α → Meth σ β) : Meth σ β := fun s =>
  match m s with
  | (.ok a, s1) => k a s1
  | (.error e, s1) => (.error e, s1)

instance {σ : Type} : Monad (Meth σ) where
  pure a := fun s => (.ok a, s)
  bind := andThen

/-- Go `return err`. -/
def fail {σ α : Type} (e : Err) : Meth σ α := fun s => (.error e, s)

/-- Go `if c { return err }`. -/
def returnIf {σ : Type} (c : Prop) [Decidable c] (e : Err) : Meth σ Unit :=
  if c then fail e else fun s => (.ok (), s)

/-- An expression that does not touch the receiver (it may panic). -/
def eval {σ α : Type} (x : Except Err α) : Meth σ α := fun s => (x, s)

/-- An assignment to the receiver. -/
def assign {σ : Type} (g : σ → σ) : Meth σ Unit := fun s => (.ok (), g s)

end Meth

instance {σ : Type} : MonadLift (Except Err) (Meth σ) where
  monadLift := Meth.eval

/-! ## `header.go` -/

/-- Go `[3]byte`. -/
structure Arr3 where
  a0 : Byte
  a1 : Byte
  a2 : Byte
  deriving DecidableEq

/-- The zero value of `[3]byte` (`var a [3]byte`). -/
def Arr3.zero : Arr3 := ⟨0, 0, 0⟩

/-- Go `a[:]` as a value. -/
def Arr3.toSlice (a : Arr3) : List Byte := [a.a0, a.a1, a.a2]

/-- The array after an operation that leaves the bytes `w` in the window `a[:]`. -/
def Arr3.ofSlice (a : Arr3) (w : List Byte) : Arr3 :=
  ⟨w.getD 0 a.a0, w.getD 1 a.a1, w.getD 2 a.a2⟩

/-- The constant `headerLen`. -/
def headerLen : Int := 24

/-- Go `type Header struct`; the field `Type` is spelled `Type_`. -/
structure Header where
  RoutingControl : Byte
  DestinationID : Arr3
  Priority : Byte
  SourceID : Arr3
  Type_ : Byte
  FrameControl : Arr3
  SequenceID : Byte
  DataFieldControl : Byte
  SequenceCount : U16
  OriginatorExchangeID : U16
  ResponderExchangeID : U16
  Parameter : U32
  deriving DecidableEq

/-- Go `new(Header)`: the zero value. -/
def Header.zero : Header :=
  ⟨0, Arr3.zero, 0, Arr3.zero, 0, Arr3.zero, 0, 0, 0, 0, 0, 0⟩

/-- Go `func (h *Header) MarshalBinary() ([]byte, error)`; the receiver is only read. -/
def Header.MarshalBinary (h : Header) : Except Err (List Byte) := do
  let b ← make headerLen
  let b ← store b 0 h.RoutingControl
  let b ← window b 1 4 fun w => pure (copy w h.DestinationID.toSlice)
  let b ← store b 4 h.Priority
  let b ← window b 5 8 fun w => pure (copy w h.SourceID.toSlice)
  let b ← store b 8 h.Type_
  let b ← window b 9 12 fun w => pure (copy w h.FrameControl.toSlice)
  let b ← store b 12 h.SequenceID
  let b ← store b 13 h.DataFieldControl
  let b ← window b 14 16 fun w => BigEndian.PutUint16 w h.SequenceCount
  let b ← window b 16 18 fun w => BigEndian.PutUint16 w h.OriginatorExchangeID
  let b ← window b 18 20 fun w => BigEndian.PutUint16 w h.ResponderExchangeID
  let b ← window b 20 24 fun w => BigEndian.PutUint32 w h.Parameter
  return b

/-- Go `func (h *Header) UnmarshalBinary(b []byte) error`. -/
def Header.UnmarshalBinary (b : List Byte) : Meth Header Unit := do
  Meth.returnIf (len b ≠ headerLen) .ErrUnexpectedEOF
  let bb ← make headerLen
  let bb ← pure (copy bb b)
  let v ← index bb 0
  Meth.assign fun h => { h with RoutingControl := v }
  let dstID ← pure (Arr3.zero.ofSlice (copy Arr3.zero.toSlice (← slice bb 1 4)))
  Meth.assign fun h => { h with DestinationID := dstID }
  let v ← index bb 4
  Meth.assign fun h => { h with Priority := v }
  let srcID ← pure (Arr3.zero.ofSlice (copy Arr3.zero.toSlice (← slice bb 5 8)))
  Meth.assign fun h => { h with SourceID := srcID }
  let v ← index bb 8
  Meth.assign fun h => { h with Type_ := v }
  let fctl ← pure (Arr3.zero.ofSlice (copy Arr3.zero.toSlice (← slice bb 9 12)))
  Meth.assign fun h => { h with FrameControl := fctl }
  let v ← index bb 12
  Meth.assign fun h => { h with SequenceID := v }
  let v ← index bb 13
  Meth.assign fun h => { h with DataFieldControl := v }
  let v ← BigEndian.Uint16 (← slice bb 14 16)
  Meth.assign fun h => { h with SequenceCount := v }
  let v ← BigEndian.Uint16 (← slice bb 16 18)
  Meth.assign fun h => { h with OriginatorExchangeID := v }
  let v ← BigEndian.Uint16 (← slice bb 18 20)
  Meth.assign fun h => { h with ResponderExchangeID := v }
  let v ← BigEndian.Uint32 (← slice bb 20 24)
  Meth.assign fun h => { h with Parameter := v }

/-! ## `frame.go` -/

/-- The constant `frameLen`: the minimum length of a Frame. -/
def frameLen : Int := 4 + headerLen + 4 + 4

/-- Go `type Frame struct`; `Header` is a pointer, `none` is `nil`. -/
structure Frame where
  SOF : Byte
  Header : Option Header
  Payload : List Byte
  EOF : Byte
  deriving DecidableEq

/-- Go `func (f *Frame) length() int`. -/
def Frame.length (f : Frame) : Int :=
  let pl := len f.Payload
  let r := pl % 4
  let pl := if r ≠ 0 then pl + (4 - r) else pl
  4 + 24 + pl + 4 + 4

/-- Go `func (f *Frame) MarshalBinary() ([]byte, error)`; the receiver is only read. -/
def Frame.MarshalBinary (f : Frame) : Except Err (List Byte) :=
  match f.Header with
  | none => .error .ErrInvalidFrame
  | some h => do
    let b ← make f.length
    let b ← store b 3 f.SOF
    let b ← store b (len b - 4) f.EOF
    let hb ← h.MarshalBinary
    let b ← window b 4 (4 + headerLen) fun w => pure (copy w hb)
    let b ← window b (4 + headerLen) (len b - 8) fun w => pure (copy w f.Payload)
    let b ← window b (len b - 8) (len b - 4) fun w => do
      let data ← slice b 4 (len b - 8)
      BigEndian.PutUint32 w (crc32.ChecksumIEEE data)
    return b

/-- Go `func (f *Frame) UnmarshalBinary(b []byte) error`. The short-circuit `||` of the
two reserved-byte tests is the sequence of its operands. -/
def Frame.UnmarshalBinary (b : List Byte) : Meth Frame Unit := do
  Meth.returnIf (len b < frameLen) .ErrUnexpectedEOF
  Meth.returnIf ((← index b 0) ≠ 0) .ErrInvalidFrame
  Meth.returnIf ((← index b 1) ≠ 0) .ErrInvalidFrame
  Meth.returnIf ((← index b 2) ≠ 0) .ErrInvalidFrame
  Meth.returnIf ((← index b (len b - 3)) ≠ 0) .ErrInvalidFrame
  Meth.returnIf ((← index b (len b - 2)) ≠ 0) .ErrInvalidFrame
  Meth.returnIf ((← index b (len b - 1)) ≠ 0) .ErrInvalidFrame
  Meth.returnIf (len (← slice b (4 + headerLen) (len b - 8)) % 4 ≠ 0) .ErrInvalidFrame
  let want ← BigEndian.Uint32 (← slice b (len b - 8) (len b - 4))
  let got ← pure (crc32.ChecksumIEEE (← slice b 4 (len b - 8)))
  Meth.returnIf (want ≠ got) .ErrInvalidCRC
  let sof ← index b 3
  Meth.assign fun f => { f with SOF := sof }
  let eof ← index b (len b - 4)
  Meth.assign fun f => { f with EOF := eof }
  let hs ← slice b 4 28
  match Header.UnmarshalBinary hs Header.zero with
  | (.error err, _) => Meth.fail err
  | (.ok _, h) =>
    Meth.assign fun f => { f with Header := some h }
    let payload ← make (len (← slice b 28 (len b - 8)))
    let payload ← pure (copy payload (← slice b 28 (len b - 4)))
    Meth.assign fun f => { f with Payload := payload }

/-! ## `fip/fip.go` and `fip/frame.go`

In this package `Err.ErrInvalidFrame` stands for the package's own `fip.ErrInvalidFrame`.
A `uint8` operation (`<<`, `>>`, `&`, `|`) is the operation of `Fin 256`, which wraps
modulo 256 like Go does. -/

namespace fip

/-- The constant `Version`. -/
def Version : Byte := 1

/-- Go `type Operation int` with its ten constants. -/
inductive Operation
  | OperationReserved
  | OperationDiscoverySolicitation
  | OperationDiscoveryAdvertisement
  | OperationVirtualLinkInstantiationRequest
  | OperationVirtualLinkInstantiationReply
  | OperationKeepAlive
  | OperationClearVirtualLinks
  | OperationVLANRequest
  | OperationVLANNotification
  | OperationVendorSpecific
  deriving DecidableEq

/-- Go `func ParseOperation(p uint16, s uint8) Operation`: the first case that holds. -/
def ParseOperation (p : U16) (s : Byte) : Operation :=
  if p = 0x0001 ∧ s = 0x01 then .OperationDiscoverySolicitation
  else if p = 0x0001 ∧ s = 0x02 then .OperationDiscoveryAdvertisement
  else if p = 0x0002 ∧ s = 0x01 then .OperationVirtualLinkInstantiationRequest
  else if p = 0x0002 ∧ s = 0x02 then .OperationVirtualLinkInstantiationReply
  else if p = 0x0003 ∧ s = 0x01 then .OperationKeepAlive
  else if p = 0x0003 ∧ s = 0x02 then .OperationClearVirtualLinks
  else if p = 0x0004 ∧ s = 0x01 then .OperationVLANRequest
  else if p = 0x0004 ∧ s = 0x02 then .OperationVLANNotification
  else if p ≥ 0xfff8 ∧ p ≤ 0xfffe then .OperationVendorSpecific
  else .OperationReserved

/-- The constant `frameLen` of package fip. -/
def frameLen : Int := 2 + 2 + 1 + 1 + 2 + 2

/-- Go `type Frame struct` of package fip. -/
structure Frame where
  Version : Byte
  ProtocolCode : U16
  Subcode : Byte
  DescriptorListLength : U16
  FlagFPMA : Bool
  FlagSPMA : Bool
  FlagAvailableForLogin : Bool
  FlagSolicited : Bool
  FlagFCF : Bool
  deriving DecidableEq

/-- Go `func (f *Frame) MarshalBinary() ([]byte, error)` of package fip; the receiver is
only read. -/
def Frame.MarshalBinary (f : Frame) : Except Err (List Byte) :=
  if f.Version ≠ fip.Version then .error .ErrInvalidFrame
  else do
    let b ← make frameLen
    let b ← store b 0 (f.Version <<< 4)
    let b ← window b 2 4 fun w => BigEndian.PutUint16 w f.ProtocolCode
    let b ← store b 5 f.Subcode
    let b ← window b 6 8 fun w => BigEndian.PutUint16 w f.DescriptorListLength
    let b ← orAssignIf f.FlagFPMA b 8 ((1 : Byte) <<< 7)
    let b ← orAssignIf f.FlagSPMA b 8 ((1 : Byte) <<< 6)
    let b ← orAssignIf f.FlagAvailableForLogin b 9 ((1 : Byte) <<< 2)
    let b ← orAssignIf f.FlagSolicited b 9 ((1 : Byte) <<< 1)
    let b ← orAssignIf f.FlagFCF b 9 1
    return b

/-- Go `func (f *Frame) UnmarshalBinary(b []byte) error` of package fip. A short-circuit
`||` is the sequence of its operands. -/
def Frame.UnmarshalBinary (b : List Byte) : Meth Frame Unit := do
  Meth.returnIf (len b < frameLen) .ErrUnexpectedEOF
  let v ← pure (((← index b 0) &&& 0xf0) >>> 4)
  Meth.returnIf (v ≠ fip.Version) .ErrInvalidFrame
  Meth.returnIf ((← index b 0) &&& 0x0f ≠ 0) .ErrInvalidFrame
  Meth.returnIf ((← index b 1) ≠ 0) .ErrInvalidFrame
  Meth.returnIf ((← index b 4) ≠ 0) .ErrInvalidFrame
  Meth.returnIf ((← index b 8) &&& 0x3f ≠ 0) .ErrInvalidFrame
  Meth.returnIf ((← index b 9) &&& 0xf8 ≠ 0) .ErrInvalidFrame
  Meth.assign fun f => { f with Version := v }
  let pc ← BigEndian.Uint16 (← slice b 2 4)
  Meth.assign fun f => { f with ProtocolCode := pc }
  let subcode ← index b 5
  Meth.assign fun f => { f with Subcode := subcode }
  let dl ← BigEndian.Uint16 (← slice b 6 8)
  Meth.assign fun f => { f with DescriptorListLength := dl }
  let x ← index b 8
  Meth.assign fun f => { f with FlagFPMA := decide (x &&& 0x80 ≠ 0) }
  let x ← index b 8
  Meth.assign fun f => { f with FlagSPMA := decide (x &&& 0x40 ≠ 0) }
  let x ← index b 9
  Meth.assign fun f => { f with FlagAvailableForLogin := decide (x &&& 0x04 ≠ 0) }
  let x ← index b 9
  Meth.assign fun f => { f with FlagSolicited := decide (x &&& 0x02 ≠ 0) }
  let x ← index b 9
  Meth.assign fun f => { f with FlagFCF := decide (x &&& 0x01 ≠ 0) }

end fip


/-! ## Reference forms used by the theorems -/

/-- The 24 header bytes in wire order. -/
def Header.wire (h : Header) : List Byte :=
  [h.RoutingControl,
   h.DestinationID.a0, h.DestinationID.a1, h.DestinationID.a2,
   h.Priority,
   h.SourceID.a0, h.SourceID.a1, h.SourceID.a2,
   h.Type_,
   h.FrameControl.a0, h.FrameControl.a1, h.FrameControl.a2,
   h.SequenceID, h.DataFieldControl,
   toByte (h.SequenceCount.val >>> 8), toByte h.SequenceCount.val,
   toByte (h.OriginatorExchangeID.val >>> 8), toByte h.OriginatorExchangeID.val,
   toByte (h.ResponderExchangeID.val >>> 8), toByte h.ResponderExchangeID.val,
   toByte (h.Parameter.val >>> 24), toByte (h.Parameter.val >>> 16),
   toByte (h.Parameter.val >>> 8), toByte h.Parameter.val]

/-- The Header whose wire bytes are `b` (read at the fixed offsets). -/
def Header.ofWire (b : List Byte) : Header :=
  { RoutingControl := b.getD 0 0
    DestinationID := ⟨b.getD 1 0, b.getD 2 0, b.getD 3 0⟩
    Priority := b.getD 4 0
    SourceID := ⟨b.getD 5 0, b.getD 6 0, b.getD 7 0⟩
    Type_ := b.getD 8 0
    FrameControl := ⟨b.getD 9 0, b.getD 10 0, b.getD 11 0⟩
    SequenceID := b.getD 12 0
    DataFieldControl := b.getD 13 0
    SequenceCount := toU16 ((b.getD 15 0).val ||| (b.getD 14 0).val <<< 8)
    OriginatorExchangeID := toU16 ((b.getD 17 0).val ||| (b.getD 16 0).val <<< 8)
    ResponderExchangeID := toU16 ((b.getD 19 0).val ||| (b.getD 18 0).val <<< 8)
    Parameter := toU32 ((b.getD 23 0).val ||| (b.getD 22 0).val <<< 8 |||
      (b.getD 21 0).val <<< 16 ||| (b.getD 20 0).val <<< 24) }

/-- Number of zero bytes that pad a payload of `n` bytes to the next multiple of four. -/
def padLen (n : Nat) : Nat := (4 - n % 4) % 4

/-- The payload followed by its zero padding. -/
def padded (p : List Byte) : List Byte := p ++ List.replicate (padLen p.length) 0

/-- The four bytes of a `uint32`, most significant first. -/
def be32 (v : U32) : List Byte :=
  [toByte (v.val >>> 24), toByte (v.val >>> 16), toByte (v.val >>> 8), toByte v.val]

/-- The `uint32` stored most significant byte first in the first four bytes of `w`. -/
def ofBe32 (w : List Byte) : U32 :=
  toU32 ((w.getD 3 0).val ||| (w.getD 2 0).val <<< 8 ||| (w.getD 1 0).val <<< 16 |||
    (w.getD 0 0).val <<< 24)

/-- The wire layout of a Frame: SOF word, header, padded payload, CRC, EOF word. -/
def Frame.wire (sof eof : Byte) (h : Fibrechannel.Header) (p : List Byte) : List Byte :=
  [0, 0, 0, sof] ++ h.wire ++ padded p ++
    be32 (crc32.ChecksumIEEE (h.wire ++ padded p)) ++ [eof, 0, 0, 0]

/-- The number a byte sequence denotes, most significant byte first. -/
def beNat (w : List Byte) : Nat := w.foldl (fun acc x => acc * 256 + x.val) 0

/-- The buffer `b` with bit `k` of the byte at offset `i` inverted. -/
def flipBit (b : List Byte) (i k : Nat) : List Byte :=
  b.set i (toByte ((b.getD i 0).val ^^^ 2 ^ k))

/-- Go `new(Frame)`: the zero value. -/
def Frame.zero : Frame := ⟨0, none, [], 0⟩

/-- Encode `f`, decode the bytes into a fresh Frame, encode that Frame again. -/
def Frame.reencode (f : Frame) : Except Err (List Byte) :=
  match f.MarshalBinary with
  | .error e => .error e
  | .ok b =>
    match Frame.UnmarshalBinary b Frame.zero with
    | (.error e, _) => .error e
    | (.ok _, g) => g.MarshalBinary

/-! ## Test vectors of `frame_test.go` -/

/-- The Header of the test case "full Frame with Header". -/
def testHeader : Header :=
  { RoutingControl := 0x01
    DestinationID := ⟨3, 3, 3⟩
    Priority := 5
    SourceID := ⟨6, 6, 6⟩
    Type_ := 2
    FrameControl := ⟨1, 2, 3⟩
    SequenceID := 5
    DataFieldControl := 6
    SequenceCount := 256
    OriginatorExchangeID := 1000
    ResponderExchangeID := 1001
    Parameter := 20000 }

/-- The Frame of the test case "full Frame with Header": `SOFi3`, payload `1 2 3`, `EOFt`. -/
def testFrame : Frame := ⟨0x2e, some testHeader, [1, 2, 3], 0x42⟩

/-- The 40 bytes the test expects for `testFrame`. -/
def testWire : List Byte :=
  [0, 0, 0, 0x2e,
   0x01, 3, 3, 3, 5, 6, 6, 6, 2, 1, 2, 3,
   5, 6, 1, 0, 3, 232, 3, 233, 0, 0, 78, 32,
   1, 2, 3, 0,
   9, 76, 188, 232,
   0x42, 0, 0, 0]

/-- The 36 bytes of the test case "OK Frame, empty header and payload". -/
def emptyWire : List Byte :=
  [0, 0, 0, 0x2e] ++ List.replicate 24 0 ++ [163, 193, 202, 32, 0x42, 0, 0, 0]

/-! ## Reference forms for package fip -/

/-- The ten bytes of a FIP Frame of version 1: version nibble, ProtocolCode big-endian,
Subcode, DescriptorListLength big-endian, and the two flag bytes. -/
def fip.Frame.wire (f : fip.Frame) : List Byte :=
  [0x10, 0,
   toByte (f.ProtocolCode.val / 256), toByte (f.ProtocolCode.val % 256),
   0, f.Subcode,
   toByte (f.DescriptorListLength.val / 256), toByte (f.DescriptorListLength.val % 256),
   toByte ((if f.FlagFPMA then 0x80 else 0) + (if f.FlagSPMA then 0x40 else 0)),
   toByte ((if f.FlagAvailableForLogin then 0x04 else 0) + (if f.FlagSolicited then 0x02 else 0) +
     (if f.FlagFCF then 0x01 else 0))]

/-- The test vector "OK" of `fip/frame_test.go`: version 1, codes and length 1, all five
flags set. -/
def fip.testFrame : fip.Frame := ⟨1, 1, 1, 1, true, true, true, true, true⟩

/-- The ten bytes the test expects for `fip.testFrame`. -/
def fip.testWire : List Byte := [0x10, 0x00, 0x00, 0x01, 0x00, 0x01, 0x00, 0x01, 0xc0, 0x07]

/-! ## Facts about the Go primitives -/

theorem ok_bind {α β : Type} (a : α) (k : α → Except Err β) :
    (Except.ok a >>= k) = k a := rfl

theorem error_bind {α β : Type} (e : Err) (k : α → Except Err β) :
    (Except.error e >>= k) = Except.error e := rfl

theorem pure_eq_ok {α : Type} (a : α) : (pure a : Except Err α) = Except.ok a := rfl

theorem make_ok (n : Int) (h : 0 ≤ n) : make n = .ok (List.replicate n.toNat 0) := by
  simp [make, h]

theorem index_ok (b : List Byte) (i : Int) (h0 : 0 ≤ i) (h1 : i < (b.length : Int)) :
    index b i = .ok (b.getD i.toNat 0) := by
  have h2 : i.toNat < b.length := by omega
  simp [index, h0, List.getElem?_eq_getElem h2, List.getD_eq_getElem _ _ h2]

theorem store_ok (b : List Byte) (i : Int) (v : Byte) (h0 : 0 ≤ i) (h1 : i < (b.length : Int)) :
    store b i v = .ok (b.set i.toNat v) := by
  simp [store, h0, h1]

theorem slice_ok (b : List Byte) (lo hi : Int) (h0 : 0 ≤ lo) (h1 : lo ≤ hi)
    (h2 : hi ≤ (b.length : Int)) :
    slice b lo hi = .ok ((b.drop lo.toNat).take (hi - lo).toNat) := by
  simp [slice, h0, h1, h2]

theorem window_ok (b : List Byte) (lo hi : Int) (op : List Byte → Except Err (List Byte))
    (h0 : 0 ≤ lo) (h1 : lo ≤ hi) (h2 : hi ≤ (b.length : Int)) :
    window b lo hi op =
      (op ((b.drop lo.toNat).take (hi - lo).toNat) >>= fun w => .ok (splice b lo hi w)) := by
  simp [window, slice_ok b lo hi h0 h1 h2, ok_bind, pure_eq_ok]

theorem make_headerLen : make headerLen = .ok (List.replicate 24 0) := by
  simp [make, headerLen]

theorem PutUint16_two (x y : Byte) (v : U16) :
    BigEndian.PutUint16 [x, y] v = .ok [toByte (v.val >>> 8), toByte v.val] := by
  simp [BigEndian.PutUint16, index, store, ok_bind, pure_eq_ok]

theorem PutUint32_four (x y z w : Byte) (v : U32) :
    BigEndian.PutUint32 [x, y, z, w] v =
      .ok [toByte (v.val >>> 24), toByte (v.val >>> 16), toByte (v.val >>> 8), toByte v.val] := by
  simp [BigEndian.PutUint32, index, store, ok_bind, pure_eq_ok]

/-! ## Facts about method bodies -/

theorem Meth.returnIf_bind {σ β : Type} (c : Prop) [Decidable c] (e : Err)
    (k : Unit → Meth σ β) (s : σ) :
    (Meth.returnIf c e >>= k) s = if c then (.error e, s) else k () s := by
  by_cases h : c <;> simp [Meth.returnIf, h, bind, Meth.andThen, Meth.fail]

theorem Meth.lift_ok_bind {σ α β : Type} (a : α) (k : α → Meth σ β) (s : σ) :
    ((liftM (Except.ok a : Except Err α) : Meth σ α) >>= k) s = k a s := rfl

theorem Meth.lift_error_bind {σ α β : Type} (e : Err) (k : α → Meth σ β) (s : σ) :
    ((liftM (Except.error e : Except Err α) : Meth σ α) >>= k) s = (.error e, s) := rfl

theorem Meth.pure_bind {σ α β : Type} (a : α) (k : α → Meth σ β) (s : σ) :
    ((pure a : Meth σ α) >>= k) s = k a s := rfl

theorem Meth.assign_bind {σ β : Type} (g : σ → σ) (k : Unit → Meth σ β) (s : σ) :
    (Meth.assign g >>= k) s = k () (g s) := rfl

theorem Meth.assign_apply {σ : Type} (g : σ → σ) (s : σ) :
    Meth.assign g s = (.ok (), g s) := rfl

theorem Meth.fail_apply {σ α : Type} (e : Err) (s : σ) :
    (Meth.fail e : Meth σ α) s = (.error e, s) := rfl

theorem list_length_24 (b : List Byte) (h : b.length = 24) :
    ∃ x0 x1 x2 x3 x4 x5 x6 x7 x8 x9 x10 x11 x12 x13 x14 x15 x16 x17 x18 x19 x20 x21 x22 x23 : Byte,
      b = [x0, x1, x2, x3, x4, x5, x6, x7, x8, x9, x10, x11, x12, x13, x14, x15, x16, x17, x18, x19, x20, x21, x22, x23] := by
  rcases b with _ | ⟨x0, b⟩
  · simp at h
  rcases b with _ | ⟨x1, b⟩
  · simp at h
  rcases b with _ | ⟨x2, b⟩
  · simp at h
  rcases b with _ | ⟨x3, b⟩
  · simp at h
  rcases b with _ | ⟨x4, b⟩
  · simp at h
  rcases b with _ | ⟨x5, b⟩
  · simp at h
  rcases b with _ | ⟨x6, b⟩
  · simp at h
  rcases b with _ | ⟨x7, b⟩
  · simp at h
  rcases b with _ | ⟨x8, b⟩
  · simp at h
  rcases b with _ | ⟨x9, b⟩
  · simp at h
  rcases b with _ | ⟨x10, b⟩
  · simp at h
  rcases b with _ | ⟨x11, b⟩
  · simp at h
  rcases b with _ | ⟨x12, b⟩
  · simp at h
  rcases b with _ | ⟨x13, b⟩
  · simp at h
  rcases b with _ | ⟨x14, b⟩
  · simp at h
  rcases b with _ | ⟨x15, b⟩
  · simp at h
  rcases b with _ | ⟨x16, b⟩
  · simp at h
  rcases b with _ | ⟨x17, b⟩
  · simp at h
  rcases b with _ | ⟨x18, b⟩
  · simp at h
  rcases b with _ | ⟨x19, b⟩
  · simp at h
  rcases b with _ | ⟨x20, b⟩
  · simp at h
  rcases b with _ | ⟨x21, b⟩
  · simp at h
  rcases b with _ | ⟨x22, b⟩
  · simp at h
  rcases b with _ | ⟨x23, b⟩
  · simp at h
  rcases b with _ | ⟨y, b⟩
  · exact ⟨x0, x1, x2, x3, x4, x5, x6, x7, x8, x9, x10, x11, x12, x13, x14, x15, x16, x17, x18, x19, x20, x21, x22, x23, rfl⟩
  · simp at h

theorem Header.marshal_eq (h : Header) : h.MarshalBinary = .ok h.wire := by
  obtain ⟨z0, z1, z2, z3, z4, z5, z6, z7, z8, z9, z10, z11, z12, z13, z14, z15, z16, z17, z18, z19, z20, z21, z22, z23,
    hz⟩ := list_length_24 (List.replicate 24 0) rfl
  have e0 : store [z0, z1, z2, z3, z4, z5, z6, z7, z8, z9, z10, z11, z12, z13, z14, z15, z16, z17, z18, z19, z20, z21, z22, z23] 0 h.RoutingControl =
      .ok [h.RoutingControl, z1, z2, z3, z4, z5, z6, z7, z8, z9, z10, z11, z12, z13, z14, z15, z16, z17, z18, z19, z20, z21, z22, z23] := by simp [store]
  have e1 : window [h.RoutingControl, z1, z2, z3, z4, z5, z6, z7, z8, z9, z10, z11, z12, z13, z14, z15, z16, z17, z18, z19, z20, z21, z22, z23] 1 4 (fun w => pure (copy w h.DestinationID.toSlice)) =
      .ok [h.RoutingControl, h.DestinationID.a0, h.DestinationID.a1, h.DestinationID.a2, z4, z5, z6, z7, z8, z9, z10, z11, z12, z13, z14, z15, z16, z17, z18, z19, z20, z21, z22, z23] := by simp [window, slice, splice, copy, Arr3.toSlice, ok_bind, pure_eq_ok]
  have e2 : store [h.RoutingControl, h.DestinationID.a0, h.DestinationID.a1, h.DestinationID.a2, z4, z5, z6, z7, z8, z9, z10, z11, z12, z13, z14, z15, z16, z17, z18, z19, z20, z21, z22, z23] 4 h.Priority =
      .ok [h.RoutingControl, h.DestinationID.a0, h.DestinationID.a1, h.DestinationID.a2, h.Priority, z5, z6, z7, z8, z9, z10, z11, z12, z13, z14, z15, z16, z17, z18, z19, z20, z21, z22, z23] := by simp [store]
  have e3 : window [h.RoutingControl, h.DestinationID.a0, h.DestinationID.a1, h.DestinationID.a2, h.Priority, z5, z6, z7, z8, z9, z10, z11, z12, z13, z14, z15, z16, z17, z18, z19, z20, z21, z22, z23] 5 8 (fun w => pure (copy w h.SourceID.toSlice)) =
      .ok [h.RoutingControl, h.DestinationID.a0, h.DestinationID.a1, h.DestinationID.a2, h.Priority, h.SourceID.a0, h.SourceID.a1, h.SourceID.a2, z8, z9, z10, z11, z12, z13, z14, z15, z16, z17, z18, z19, z20, z21, z22, z23] := by simp [window, slice, splice, copy, Arr3.toSlice, ok_bind, pure_eq_ok]
  have e4 : store [h.RoutingControl, h.DestinationID.a0, h.DestinationID.a1, h.DestinationID.a2, h.Priority, h.SourceID.a0, h.SourceID.a1, h.SourceID.a2, z8, z9, z10, z11, z12, z13, z14, z15, z16, z17, z18, z19, z20, z21, z22, z23] 8 h.Type_ =
      .ok [h.RoutingControl, h.DestinationID.a0, h.DestinationID.a1, h.DestinationID.a2, h.Priority, h.SourceID.a0, h.SourceID.a1, h.SourceID.a2, h.Type_, z9, z10, z11, z12, z13, z14, z15, z16, z17, z18, z19, z20, z21, z22, z23] := by simp [store]
  have e5 : window [h.RoutingControl, h.DestinationID.a0, h.DestinationID.a1, h.DestinationID.a2, h.Priority, h.SourceID.a0, h.SourceID.a1, h.SourceID.a2, h.Type_, z9, z10, z11, z12, z13, z14, z15, z16, z17, z18, z19, z20, z21, z22, z23] 9 12 (fun w => pure (copy w h.FrameControl.toSlice)) =
      .ok [h.RoutingControl, h.DestinationID.a0, h.DestinationID.a1, h.DestinationID.a2, h.Priority, h.SourceID.a0, h.SourceID.a1, h.SourceID.a2, h.Type_, h.FrameControl.a0, h.FrameControl.a1, h.FrameControl.a2, z12, z13, z14, z15, z16, z17, z18, z19, z20, z21, z22, z23] := by simp [window, slice, splice, copy, Arr3.toSlice, ok_bind, pure_eq_ok]
  have e6 : store [h.RoutingControl, h.DestinationID.a0, h.DestinationID.a1, h.DestinationID.a2, h.Priority, h.SourceID.a0, h.SourceID.a1, h.SourceID.a2, h.Type_, h.FrameControl.a0, h.FrameControl.a1, h.FrameControl.a2, z12, z13, z14, z15, z16, z17, z18, z19, z20, z21, z22, z23] 12 h.SequenceID =
      .ok [h.RoutingControl, h.DestinationID.a0, h.DestinationID.a1, h.DestinationID.a2, h.Priority, h.SourceID.a0, h.SourceID.a1, h.SourceID.a2, h.Type_, h.FrameControl.a0, h.FrameControl.a1, h.FrameControl.a2, h.SequenceID, z13, z14, z15, z16, z17, z18, z19, z20, z21, z22, z23] := by simp [store]
  have e7 : store [h.RoutingControl, h.DestinationID.a0, h.DestinationID.a1, h.DestinationID.a2, h.Priority, h.SourceID.a0, h.SourceID.a1, h.SourceID.a2, h.Type_, h.FrameControl.a0, h.FrameControl.a1, h.FrameControl.a2, h.SequenceID, z13, z14, z15, z16, z17, z18, z19, z20, z21, z22, z23] 13 h.DataFieldControl =
      .ok [h.RoutingControl, h.DestinationID.a0, h.DestinationID.a1, h.DestinationID.a2, h.Priority, h.SourceID.a0, h.SourceID.a1, h.SourceID.a2, h.Type_, h.FrameControl.a0, h.FrameControl.a1, h.FrameControl.a2, h.SequenceID, h.DataFieldControl, z14, z15, z16, z17, z18, z19, z20, z21, z22, z23] := by simp [store]
  have e8 : window [h.RoutingControl, h.DestinationID.a0, h.DestinationID.a1, h.DestinationID.a2, h.Priority, h.SourceID.a0, h.SourceID.a1, h.SourceID.a2, h.Type_, h.FrameControl.a0, h.FrameControl.a1, h.FrameControl.a2, h.SequenceID, h.DataFieldControl, z14, z15, z16, z17, z18, z19, z20, z21, z22, z23] 14 16 (fun w => BigEndian.PutUint16 w h.SequenceCount) =
      .ok [h.RoutingControl, h.DestinationID.a0, h.DestinationID.a1, h.DestinationID.a2, h.Priority, h.SourceID.a0, h.SourceID.a1, h.SourceID.a2, h.Type_, h.FrameControl.a0, h.FrameControl.a1, h.FrameControl.a2, h.SequenceID, h.DataFieldControl, toByte (h.SequenceCount.val >>> 8), toByte h.SequenceCount.val, z16, z17, z18, z19, z20, z21, z22, z23] := by simp [window, slice, splice, PutUint16_two, ok_bind, pure_eq_ok]
  have e9 : window [h.RoutingControl, h.DestinationID.a0, h.DestinationID.a1, h.DestinationID.a2, h.Priority, h.SourceID.a0, h.SourceID.a1, h.SourceID.a2, h.Type_, h.FrameControl.a0, h.FrameControl.a1, h.FrameControl.a2, h.SequenceID, h.DataFieldControl, toByte (h.SequenceCount.val >>> 8), toByte h.SequenceCount.val, z16, z17, z18, z19, z20, z21, z22, z23] 16 18 (fun w => BigEndian.PutUint16 w h.OriginatorExchangeID) =
      .ok [h.RoutingControl, h.DestinationID.a0, h.DestinationID.a1, h.DestinationID.a2, h.Priority, h.SourceID.a0, h.SourceID.a1, h.SourceID.a2, h.Type_, h.FrameControl.a0, h.FrameControl.a1, h.FrameControl.a2, h.SequenceID, h.DataFieldControl, toByte (h.SequenceCount.val >>> 8), toByte h.SequenceCount.val, toByte (h.OriginatorExchangeID.val >>> 8), toByte h.OriginatorExchangeID.val, z18, z19, z20, z21, z22, z23] := by simp [window, slice, splice, PutUint16_two, ok_bind, pure_eq_ok]
  have e10 : window [h.RoutingControl, h.DestinationID.a0, h.DestinationID.a1, h.DestinationID.a2, h.Priority, h.SourceID.a0, h.SourceID.a1, h.SourceID.a2, h.Type_, h.FrameControl.a0, h.FrameControl.a1, h.FrameControl.a2, h.SequenceID, h.DataFieldControl, toByte (h.SequenceCount.val >>> 8), toByte h.SequenceCount.val, toByte (h.OriginatorExchangeID.val >>> 8), toByte h.OriginatorExchangeID.val, z18, z19, z20, z21, z22, z23] 18 20 (fun w => BigEndian.PutUint16 w h.ResponderExchangeID) =
      .ok [h.RoutingControl, h.DestinationID.a0, h.DestinationID.a1, h.DestinationID.a2, h.Priority, h.SourceID.a0, h.SourceID.a1, h.SourceID.a2, h.Type_, h.FrameControl.a0, h.FrameControl.a1, h.FrameControl.a2, h.SequenceID, h.DataFieldControl, toByte (h.SequenceCount.val >>> 8), toByte h.SequenceCount.val, toByte (h.OriginatorExchangeID.val >>> 8), toByte h.OriginatorExchangeID.val, toByte (h.ResponderExchangeID.val >>> 8), toByte h.ResponderExchangeID.val, z20, z21, z22, z23] := by simp [window, slice, splice, PutUint16_two, ok_bind, pure_eq_ok]
  have e11 : window [h.RoutingControl, h.DestinationID.a0, h.DestinationID.a1, h.DestinationID.a2, h.Priority, h.SourceID.a0, h.SourceID.a1, h.SourceID.a2, h.Type_, h.FrameControl.a0, h.FrameControl.a1, h.FrameControl.a2, h.SequenceID, h.DataFieldControl, toByte (h.SequenceCount.val >>> 8), toByte h.SequenceCount.val, toByte (h.OriginatorExchangeID.val >>> 8), toByte h.OriginatorExchangeID.val, toByte (h.ResponderExchangeID.val >>> 8), toByte h.ResponderExchangeID.val, z20, z21, z22, z23] 20 24 (fun w => BigEndian.PutUint32 w h.Parameter) =
      .ok [h.RoutingControl, h.DestinationID.a0, h.DestinationID.a1, h.DestinationID.a2, h.Priority, h.SourceID.a0, h.SourceID.a1, h.SourceID.a2, h.Type_, h.FrameControl.a0, h.FrameControl.a1, h.FrameControl.a2, h.SequenceID, h.DataFieldControl, toByte (h.SequenceCount.val >>> 8), toByte h.SequenceCount.val, toByte (h.OriginatorExchangeID.val >>> 8), toByte h.OriginatorExchangeID.val, toByte (h.ResponderExchangeID.val >>> 8), toByte h.ResponderExchangeID.val, toByte (h.Parameter.val >>> 24), toByte (h.Parameter.val >>> 16), toByte (h.Parameter.val >>> 8), toByte h.Parameter.val] := by simp [window, slice, splice, PutUint32_four, ok_bind, pure_eq_ok]
  unfold Header.MarshalBinary
  rw [make_headerLen, hz, ok_bind, e0, ok_bind, e1, ok_bind, e2, ok_bind, e3, ok_bind, e4, ok_bind, e5, ok_bind, e6, ok_bind, e7, ok_bind, e8, ok_bind, e9, ok_bind, e10, ok_bind, e11, ok_bind]
  rfl

theorem Uint16_two (x y : Byte) :
    BigEndian.Uint16 [x, y] = .ok (toU16 (y.val ||| x.val <<< 8)) := by
  simp [BigEndian.Uint16, index, ok_bind, pure_eq_ok]

theorem Uint32_four (x y z w : Byte) :
    BigEndian.Uint32 [x, y, z, w] =
      .ok (toU32 (w.val ||| z.val <<< 8 ||| y.val <<< 16 ||| x.val <<< 24)) := by
  simp [BigEndian.Uint32, index, ok_bind, pure_eq_ok]

theorem Arr3_ofSlice_copy (x y z : Byte) :
    Arr3.zero.ofSlice (copy Arr3.zero.toSlice [x, y, z]) = ⟨x, y, z⟩ := by
  simp [Arr3.ofSlice, Arr3.toSlice, Arr3.zero, copy]

theorem Header.unmarshal_cons (h : Header)
    (x0 x1 x2 x3 x4 x5 x6 x7 x8 x9 x10 x11 x12 x13 x14 x15 x16 x17 x18 x19 x20 x21 x22 x23 : Byte) :
    Header.UnmarshalBinary [x0, x1, x2, x3, x4, x5, x6, x7, x8, x9, x10, x11, x12, x13, x14, x15, x16, x17, x18, x19, x20, x21, x22, x23] h =
      (.ok (), Header.ofWire [x0, x1, x2, x3, x4, x5, x6, x7, x8, x9, x10, x11, x12, x13, x14, x15, x16, x17, x18, x19, x20, x21, x22, x23]) := by
  have hl : ¬ (len [x0, x1, x2, x3, x4, x5, x6, x7, x8, x9, x10, x11, x12, x13, x14, x15, x16, x17, x18, x19, x20, x21, x22, x23] ≠ headerLen) := by simp [len, headerLen]
  have hc : copy (List.replicate 24 0) [x0, x1, x2, x3, x4, x5, x6, x7, x8, x9, x10, x11, x12, x13, x14, x15, x16, x17, x18, x19, x20, x21, x22, x23] =
      [x0, x1, x2, x3, x4, x5, x6, x7, x8, x9, x10, x11, x12, x13, x14, x15, x16, x17, x18, x19, x20, x21, x22, x23] := by simp [copy]
  have i0 : index [x0, x1, x2, x3, x4, x5, x6, x7, x8, x9, x10, x11, x12, x13, x14, x15, x16, x17, x18, x19, x20, x21, x22, x23] 0 = .ok x0 := by simp [index]
  have s1 : slice [x0, x1, x2, x3, x4, x5, x6, x7, x8, x9, x10, x11, x12, x13, x14, x15, x16, x17, x18, x19, x20, x21, x22, x23] 1 4 = .ok [x1, x2, x3] := by simp [slice]
  have i4 : index [x0, x1, x2, x3, x4, x5, x6, x7, x8, x9, x10, x11, x12, x13, x14, x15, x16, x17, x18, x19, x20, x21, x22, x23] 4 = .ok x4 := by simp [index]
  have s5 : slice [x0, x1, x2, x3, x4, x5, x6, x7, x8, x9, x10, x11, x12, x13, x14, x15, x16, x17, x18, x19, x20, x21, x22, x23] 5 8 = .ok [x5, x6, x7] := by simp [slice]
  have i8 : index [x0, x1, x2, x3, x4, x5, x6, x7, x8, x9, x10, x11, x12, x13, x14, x15, x16, x17, x18, x19, x20, x21, x22, x23] 8 = .ok x8 := by simp [index]
  have s9 : slice [x0, x1, x2, x3, x4, x5, x6, x7, x8, x9, x10, x11, x12, x13, x14, x15, x16, x17, x18, x19, x20, x21, x22, x23] 9 12 = .ok [x9, x10, x11] := by simp [slice]
  have i12 : index [x0, x1, x2, x3, x4, x5, x6, x7, x8, x9, x10, x11, x12, x13, x14, x15, x16, x17, x18, x19, x20, x21, x22, x23] 12 = .ok x12 := by simp [index]
  have i13 : index [x0, x1, x2, x3, x4, x5, x6, x7, x8, x9, x10, x11, x12, x13, x14, x15, x16, x17, x18, x19, x20, x21, x22, x23] 13 = .ok x13 := by simp [index]
  have s14 : slice [x0, x1, x2, x3, x4, x5, x6, x7, x8, x9, x10, x11, x12, x13, x14, x15, x16, x17, x18, x19, x20, x21, x22, x23] 14 16 = .ok [x14, x15] := by simp [slice]
  have s16 : slice [x0, x1, x2, x3, x4, x5, x6, x7, x8, x9, x10, x11, x12, x13, x14, x15, x16, x17, x18, x19, x20, x21, x22, x23] 16 18 = .ok [x16, x17] := by simp [slice]
  have s18 : slice [x0, x1, x2, x3, x4, x5, x6, x7, x8, x9, x10, x11, x12, x13, x14, x15, x16, x17, x18, x19, x20, x21, x22, x23] 18 20 = .ok [x18, x19] := by simp [slice]
  have s20 : slice [x0, x1, x2, x3, x4, x5, x6, x7, x8, x9, x10, x11, x12, x13, x14, x15, x16, x17, x18, x19, x20, x21, x22, x23] 20 24 = .ok [x20, x21, x22, x23] := by simp [slice]
  unfold Header.UnmarshalBinary
  rw [Meth.returnIf_bind]
  rw [if_neg hl]
  rw [make_headerLen]
  rw [Meth.lift_ok_bind]
  rw [Meth.pure_bind]
  rw [hc]
  rw [i0]
  rw [Meth.lift_ok_bind]
  rw [Meth.assign_bind]
  try dsimp only
  rw [s1]
  rw [Meth.lift_ok_bind]
  rw [Arr3_ofSlice_copy]
  rw [Meth.pure_bind]
  rw [Meth.assign_bind]
  try dsimp only
  rw [i4]
  rw [Meth.lift_ok_bind]
  rw [Meth.assign_bind]
  try dsimp only
  rw [s5]
  rw [Meth.lift_ok_bind]
  rw [Arr3_ofSlice_copy]
  rw [Meth.pure_bind]
  rw [Meth.assign_bind]
  try dsimp only
  rw [i8]
  rw [Meth.lift_ok_bind]
  rw [Meth.assign_bind]
  try dsimp only
  rw [s9]
  rw [Meth.lift_ok_bind]
  rw [Arr3_ofSlice_copy]
  rw [Meth.pure_bind]
  rw [Meth.assign_bind]
  try dsimp only
  rw [i12]
  rw [Meth.lift_ok_bind]
  rw [Meth.assign_bind]
  try dsimp only
  rw [i13]
  rw [Meth.lift_ok_bind]
  rw [Meth.assign_bind]
  try dsimp only
  rw [s14]
  rw [Meth.lift_ok_bind]
  rw [Uint16_two]
  rw [Meth.lift_ok_bind]
  rw [Meth.assign_bind]
  try dsimp only
  rw [s16]
  rw [Meth.lift_ok_bind]
  rw [Uint16_two]
  rw [Meth.lift_ok_bind]
  rw [Meth.assign_bind]
  try dsimp only
  rw [s18]
  rw [Meth.lift_ok_bind]
  rw [Uint16_two]
  rw [Meth.lift_ok_bind]
  rw [Meth.assign_bind]
  try dsimp only
  rw [s20]
  rw [Meth.lift_ok_bind]
  rw [Uint32_four]
  rw [Meth.lift_ok_bind]
  rw [Meth.assign_apply]
  try dsimp only

  simp [Header.ofWire]

/-! ## Big-endian accessors -/

theorem or_shiftLeft_eq (a b i : Nat) (ha : a < 2 ^ i) : a ||| b <<< i = a + b * 2 ^ i := by
  rw [Nat.or_comm, Nat.shiftLeft_eq, Nat.mul_comm b, ← Nat.mul_add_lt_is_or ha b]
  omega

theorem be16_val (x y : Byte) : y.val ||| x.val <<< 8 = y.val + x.val * 256 := by
  have := or_shiftLeft_eq y.val x.val 8 (by have := y.isLt; omega)
  simpa using this

theorem be32_val (x y z w : Byte) :
    w.val ||| z.val <<< 8 ||| y.val <<< 16 ||| x.val <<< 24 =
      w.val + z.val * 256 + y.val * 65536 + x.val * 16777216 := by
  have h1 := or_shiftLeft_eq w.val z.val 8 (by have := w.isLt; omega)
  have h2 := or_shiftLeft_eq (w.val + z.val * 256) y.val 16
    (by have := w.isLt; have := z.isLt; omega)
  have h3 := or_shiftLeft_eq (w.val + z.val * 256 + y.val * 65536) x.val 24
    (by have := w.isLt; have := z.isLt; have := y.isLt; omega)
  simp only [Nat.reducePow] at h1 h2 h3
  rw [h1, h2, h3]

theorem toByte_val (n : Nat) : (toByte n).val = n % 256 := rfl

theorem toU16_val (n : Nat) : (toU16 n).val = n % 65536 := rfl

theorem toU32_val (n : Nat) : (toU32 n).val = n % 4294967296 := rfl

theorem toU16_bytes (v : U16) :
    toU16 ((toByte v.val).val ||| (toByte (v.val >>> 8)).val <<< 8) = v := by
  apply Fin.ext
  rw [toU16_val, be16_val, toByte_val, toByte_val, Nat.shiftRight_eq_div_pow]
  have := v.isLt
  omega

theorem toU32_bytes (v : U32) :
    toU32 ((toByte v.val).val ||| (toByte (v.val >>> 8)).val <<< 8 |||
      (toByte (v.val >>> 16)).val <<< 16 ||| (toByte (v.val >>> 24)).val <<< 24) = v := by
  apply Fin.ext
  rw [toU32_val, be32_val]
  simp only [toByte_val, Nat.shiftRight_eq_div_pow]
  have := v.isLt
  omega

theorem toByte_be16_hi (x y : Byte) :
    toByte ((toU16 (y.val ||| x.val <<< 8)).val >>> 8) = x := by
  apply Fin.ext
  rw [toByte_val, toU16_val, be16_val, Nat.shiftRight_eq_div_pow]
  have := x.isLt; have := y.isLt
  omega

theorem toByte_be16_lo (x y : Byte) :
    toByte (toU16 (y.val ||| x.val <<< 8)).val = y := by
  apply Fin.ext
  rw [toByte_val, toU16_val, be16_val]
  have := x.isLt; have := y.isLt
  omega

theorem toByte_be32 (x y z w : Byte) :
    toByte ((toU32 (w.val ||| z.val <<< 8 ||| y.val <<< 16 ||| x.val <<< 24)).val >>> 24) = x ∧
    toByte ((toU32 (w.val ||| z.val <<< 8 ||| y.val <<< 16 ||| x.val <<< 24)).val >>> 16) = y ∧
    toByte ((toU32 (w.val ||| z.val <<< 8 ||| y.val <<< 16 ||| x.val <<< 24)).val >>> 8) = z ∧
    toByte (toU32 (w.val ||| z.val <<< 8 ||| y.val <<< 16 ||| x.val <<< 24)).val = w := by
  have := x.isLt; have := y.isLt; have := z.isLt; have := w.isLt
  refine ⟨?_, ?_, ?_, ?_⟩ <;> apply Fin.ext <;>
    simp only [toByte_val, toU32_val, be32_val, Nat.shiftRight_eq_div_pow] <;> omega

/-! ## The Header codec -/

theorem Header.wire_length (h : Header) : h.wire.length = 24 := rfl

theorem Header.unmarshal_of_length (b : List Byte) (h0 : Header) (hb : b.length = 24) :
    Header.UnmarshalBinary b h0 = (.ok (), Header.ofWire b) := by
  obtain ⟨x0, x1, x2, x3, x4, x5, x6, x7, x8, x9, x10, x11, x12, x13, x14, x15, x16, x17,
    x18, x19, x20, x21, x22, x23, rfl⟩ := list_length_24 b hb
  exact Header.unmarshal_cons h0 _ _ _ _ _ _ _ _ _ _ _ _ _ _ _ _ _ _ _ _ _ _ _ _

theorem Header.unmarshal_of_length_ne (b : List Byte) (h0 : Header) (hb : b.length ≠ 24) :
    Header.UnmarshalBinary b h0 = (.error .ErrUnexpectedEOF, h0) := by
  unfold Header.UnmarshalBinary
  rw [Meth.returnIf_bind, if_pos]
  simp only [len, headerLen]
  omega

theorem Header.ofWire_wire (h : Header) : Header.ofWire h.wire = h := by
  rcases h with ⟨rc, ⟨d0, d1, d2⟩, pr, ⟨s0, s1, s2⟩, ty, ⟨f0, f1, f2⟩, sid, dfc, sc, ox, rx, pa⟩
  simp only [Header.ofWire, Header.wire, List.getD_cons_zero, List.getD_cons_succ,
    toU16_bytes, toU32_bytes]

theorem Header.wire_ofWire (b : List Byte) (hb : b.length = 24) : (Header.ofWire b).wire = b := by
  obtain ⟨x0, x1, x2, x3, x4, x5, x6, x7, x8, x9, x10, x11, x12, x13, x14, x15, x16, x17,
    x18, x19, x20, x21, x22, x23, rfl⟩ := list_length_24 b hb
  obtain ⟨p0, p1, p2, p3⟩ := toByte_be32 x20 x21 x22 x23
  simp only [Header.ofWire, Header.wire, List.getD_cons_zero, List.getD_cons_succ,
    toByte_be16_hi, toByte_be16_lo, p0, p1, p2, p3]

/-! ## Buffers seen as segments -/

theorem store_segment (xs zs : List Byte) (y v : Byte) (i : Int) (hi : i = (xs.length : Int)) :
    store (xs ++ y :: zs) i v = .ok (xs ++ v :: zs) := by
  subst hi
  rw [store_ok _ _ _ (by omega) (by simp)]
  simp

theorem slice_segment (xs ys zs : List Byte) (lo hi : Int) (hlo : lo = (xs.length : Int))
    (hhi : hi = (xs.length : Int) + (ys.length : Int)) :
    slice (xs ++ ys ++ zs) lo hi = .ok ys := by
  subst hlo hhi
  rw [slice_ok _ _ _ (by omega) (by omega) (by simp)]
  simp

theorem splice_segment (xs ys zs w : List Byte) (lo hi : Int) (hlo : lo = (xs.length : Int))
    (hhi : hi = (xs.length : Int) + (ys.length : Int)) :
    splice (xs ++ ys ++ zs) lo hi w = xs ++ w ++ zs := by
  subst hlo hhi
  have h : ((xs.length : Int) + (ys.length : Int)).toNat = xs.length + ys.length := by omega
  simp [splice, h]

theorem window_segment (xs ys zs : List Byte) (lo hi : Int)
    (op : List Byte → Except Err (List Byte)) (hlo : lo = (xs.length : Int))
    (hhi : hi = (xs.length : Int) + (ys.length : Int)) :
    window (xs ++ ys ++ zs) lo hi op = (op ys >>= fun w => .ok (xs ++ w ++ zs)) := by
  unfold window
  rw [slice_segment xs ys zs lo hi hlo hhi, ok_bind]
  simp only [splice_segment xs ys zs _ lo hi hlo hhi, pure_eq_ok]

theorem copy_same_length (w src : List Byte) (h : w.length = src.length) : copy w src = src := by
  simp [copy, h]

theorem copy_zeros (p : List Byte) (k : Nat) (h : p.length ≤ k) :
    copy (List.replicate k 0) p = p ++ List.replicate (k - p.length) 0 := by
  simp [copy, List.take_of_length_le h]

theorem padLen_add (n : Nat) : (n + padLen n) % 4 = 0 := by
  unfold padLen; omega

theorem padded_length (p : List Byte) : (padded p).length = p.length + padLen p.length := by
  simp [padded]

theorem Frame.length_eq (f : Frame) :
    f.length = ((36 + (f.Payload.length + padLen f.Payload.length) : Nat) : Int) := by
  unfold Frame.length padLen
  simp only [len]
  split <;> omega

/-! ## `Frame.MarshalBinary` in closed form -/

theorem zeros_split (k : Nat) :
    List.replicate (36 + k) (0 : Byte) =
      [0, 0, 0] ++ 0 :: (List.replicate 24 0 ++ List.replicate k 0 ++ List.replicate 4 0 ++
        0 :: [0, 0, 0]) := by
  symm
  rw [List.eq_replicate_iff]
  constructor
  · simp; omega
  · intro b hb
    simp only [List.mem_append, List.mem_cons, List.mem_replicate, List.mem_singleton,
      List.not_mem_nil] at hb
    tauto

theorem Frame.marshal_some (sof eof : Byte) (h : Fibrechannel.Header) (p : List Byte) :
    Frame.MarshalBinary ⟨sof, some h, p, eof⟩ = .ok (Frame.wire sof eof h p) := by
  have hH : h.wire.length = 24 := rfl
  have hlen : Frame.length ⟨sof, some h, p, eof⟩ =
      ((36 + (p.length + padLen p.length) : Nat) : Int) := Frame.length_eq _
  have hP := padded_length p
  have hk : padded p = copy (List.replicate (p.length + padLen p.length) 0) p := by
    rw [copy_zeros p _ (by omega)]
    simp [padded]
  -- the successive contents of the buffer
  have e0 : make (Frame.length ⟨sof, some h, p, eof⟩) =
      .ok ([0, 0, 0] ++ 0 :: (List.replicate 24 0 ++
        List.replicate (p.length + padLen p.length) 0 ++ List.replicate 4 0 ++ 0 :: [0, 0, 0])) := by
    rw [hlen, make_ok _ (by omega), Int.toNat_ofNat, zeros_split]
  have e1 : store ([0, 0, 0] ++ 0 :: (List.replicate 24 0 ++
        List.replicate (p.length + padLen p.length) 0 ++ List.replicate 4 0 ++ 0 :: [0, 0, 0]))
        3 sof =
      .ok ([0, 0, 0, sof] ++ List.replicate 24 0 ++
        List.replicate (p.length + padLen p.length) 0 ++ List.replicate 4 0 ++ 0 :: [0, 0, 0]) := by
    rw [store_segment _ _ _ _ _ (by simp)]
    simp
  have e2 : store ([0, 0, 0, sof] ++ List.replicate 24 0 ++
        List.replicate (p.length + padLen p.length) 0 ++ List.replicate 4 0 ++ 0 :: [0, 0, 0])
        (len ([0, 0, 0, sof] ++ List.replicate 24 0 ++
        List.replicate (p.length + padLen p.length) 0 ++ List.replicate 4 0 ++ 0 :: [0, 0, 0]) - 4)
        eof =
      .ok ([0, 0, 0, sof] ++ List.replicate 24 0 ++
        (List.replicate (p.length + padLen p.length) 0 ++ List.replicate 4 0 ++ [eof, 0, 0, 0])) := by
    rw [store_segment _ _ _ _ _ (by simp [len]; omega)]
    simp
  have e3 : window ([0, 0, 0, sof] ++ List.replicate 24 0 ++
        (List.replicate (p.length + padLen p.length) 0 ++ List.replicate 4 0 ++ [eof, 0, 0, 0]))
        4 (4 + headerLen) (fun w => pure (copy w h.wire)) =
      .ok ([0, 0, 0, sof] ++ h.wire ++
        List.replicate (p.length + padLen p.length) 0 ++ (List.replicate 4 0 ++ [eof, 0, 0, 0])) := by
    rw [window_segment _ _ _ _ _ _ (by simp) (by simp [headerLen]),
      copy_same_length _ _ (by simp [hH]), pure_eq_ok, ok_bind]
    simp
  have e4 : window ([0, 0, 0, sof] ++ h.wire ++
        List.replicate (p.length + padLen p.length) 0 ++ (List.replicate 4 0 ++ [eof, 0, 0, 0]))
        (4 + headerLen) (len ([0, 0, 0, sof] ++ h.wire ++
        List.replicate (p.length + padLen p.length) 0 ++ (List.replicate 4 0 ++ [eof, 0, 0, 0])) - 8)
        (fun w => pure (copy w p)) =
      .ok ([0, 0, 0, sof] ++ (h.wire ++ padded p) ++ (List.replicate 4 0 ++ [eof, 0, 0, 0])) := by
    rw [window_segment _ _ _ _ _ _ (by simp [headerLen, hH]) (by simp [len, hH]; omega),
      ← hk, pure_eq_ok, ok_bind]
    simp
  have e5 : slice ([0, 0, 0, sof] ++ (h.wire ++ padded p) ++
        (List.replicate 4 0 ++ [eof, 0, 0, 0])) 4
        (len ([0, 0, 0, sof] ++ (h.wire ++ padded p) ++
        (List.replicate 4 0 ++ [eof, 0, 0, 0])) - 8) = .ok (h.wire ++ padded p) := by
    rw [slice_segment _ _ _ _ _ (by simp) (by simp [len]; omega)]
  have e6 : window ([0, 0, 0, sof] ++ (h.wire ++ padded p) ++
        (List.replicate 4 0 ++ [eof, 0, 0, 0]))
        (len ([0, 0, 0, sof] ++ (h.wire ++ padded p) ++
        (List.replicate 4 0 ++ [eof, 0, 0, 0])) - 8)
        (len ([0, 0, 0, sof] ++ (h.wire ++ padded p) ++
        (List.replicate 4 0 ++ [eof, 0, 0, 0])) - 4)
        (fun w => do
          let data ← slice ([0, 0, 0, sof] ++ (h.wire ++ padded p) ++
            (List.replicate 4 0 ++ [eof, 0, 0, 0])) 4
            (len ([0, 0, 0, sof] ++ (h.wire ++ padded p) ++
            (List.replicate 4 0 ++ [eof, 0, 0, 0])) - 8)
          BigEndian.PutUint32 w (crc32.ChecksumIEEE data)) =
      .ok (Frame.wire sof eof h p) := by
    have hv : [0, 0, 0, sof] ++ (h.wire ++ padded p) ++ (List.replicate 4 0 ++ [eof, 0, 0, 0]) =
        ([0, 0, 0, sof] ++ (h.wire ++ padded p)) ++ List.replicate 4 0 ++ [eof, 0, 0, 0] := by
      simp
    rw [e5, hv, window_segment _ _ _ _ _ _ (by simp [len]; omega) (by simp [len]; omega), ok_bind]
    have h4 : List.replicate 4 (0 : Byte) = [0, 0, 0, 0] := rfl
    rw [h4, PutUint32_four, ok_bind]
    simp [Frame.wire, be32]
  unfold Frame.MarshalBinary
  dsimp only
  rw [e0, ok_bind, e1, ok_bind, e2, ok_bind, Header.marshal_eq, ok_bind, e3, ok_bind, e4, ok_bind,
    e6, ok_bind]
  rfl

/-! ## `Frame.UnmarshalBinary` step by step -/

theorem Uint32_ok (w : List Byte) (hw : 4 ≤ w.length) : BigEndian.Uint32 w = .ok (ofBe32 w) := by
  unfold BigEndian.Uint32
  rw [index_ok w 3 (by omega) (by omega), index_ok w 2 (by omega) (by omega),
    index_ok w 1 (by omega) (by omega), index_ok w 0 (by omega) (by omega)]
  rfl

theorem Uint16_ok (w : List Byte) (hw : 2 ≤ w.length) :
    BigEndian.Uint16 w = .ok (toU16 ((w.getD 1 0).val ||| (w.getD 0 0).val <<< 8)) := by
  unfold BigEndian.Uint16
  rw [index_ok w 1 (by omega) (by omega), index_ok w 0 (by omega) (by omega)]
  rfl

theorem Frame.unmarshal_short (b : List Byte) (f : Frame) (hb : b.length < 36) :
    Frame.UnmarshalBinary b f = (.error .ErrUnexpectedEOF, f) := by
  unfold Frame.UnmarshalBinary
  rw [Meth.returnIf_bind, if_pos]
  simp only [len, frameLen, headerLen]
  omega

/-- The checks of `Frame.UnmarshalBinary` in the order the code makes them, on a buffer of
at least 36 bytes, and the Frame it leaves in the receiver when all of them pass. -/
theorem Frame.unmarshal_long (b : List Byte) (f : Frame) (hb : 36 ≤ b.length) :
    Frame.UnmarshalBinary b f =
      if b.getD 0 0 ≠ 0 then (.error .ErrInvalidFrame, f)
      else if b.getD 1 0 ≠ 0 then (.error .ErrInvalidFrame, f)
      else if b.getD 2 0 ≠ 0 then (.error .ErrInvalidFrame, f)
      else if b.getD (b.length - 3) 0 ≠ 0 then (.error .ErrInvalidFrame, f)
      else if b.getD (b.length - 2) 0 ≠ 0 then (.error .ErrInvalidFrame, f)
      else if b.getD (b.length - 1) 0 ≠ 0 then (.error .ErrInvalidFrame, f)
      else if len ((b.drop 28).take (b.length - 36)) % 4 ≠ 0 then (.error .ErrInvalidFrame, f)
      else if ofBe32 ((b.drop (b.length - 8)).take 4) ≠
          crc32.ChecksumIEEE ((b.drop 4).take (b.length - 12)) then (.error .ErrInvalidCRC, f)
      else (.ok (), ⟨b.getD 3 0, some (Header.ofWire ((b.drop 4).take 24)),
        (b.drop 28).take (b.length - 36), b.getD (b.length - 4) 0⟩) := by
  have hlt : ¬ (len b < frameLen) := by simp only [len, frameLen, headerLen]; omega
  have i0 : index b 0 = .ok (b.getD 0 0) := index_ok b 0 (by omega) (by omega)
  have i1 : index b 1 = .ok (b.getD 1 0) := index_ok b 1 (by omega) (by omega)
  have i2 : index b 2 = .ok (b.getD 2 0) := index_ok b 2 (by omega) (by omega)
  have i3 : index b 3 = .ok (b.getD 3 0) := index_ok b 3 (by omega) (by omega)
  have j1 : index b (len b - 1) = .ok (b.getD (b.length - 1) 0) := by
    rw [index_ok b _ (by simp only [len]; omega) (by simp only [len]; omega)]
    congr 2; simp only [len]; omega
  have j2 : index b (len b - 2) = .ok (b.getD (b.length - 2) 0) := by
    rw [index_ok b _ (by simp only [len]; omega) (by simp only [len]; omega)]
    congr 2; simp only [len]; omega
  have j3 : index b (len b - 3) = .ok (b.getD (b.length - 3) 0) := by
    rw [index_ok b _ (by simp only [len]; omega) (by simp only [len]; omega)]
    congr 2; simp only [len]; omega
  have j4 : index b (len b - 4) = .ok (b.getD (b.length - 4) 0) := by
    rw [index_ok b _ (by simp only [len]; omega) (by simp only [len]; omega)]
    congr 2; simp only [len]; omega
  have s1 : slice b (4 + headerLen) (len b - 8) = .ok ((b.drop 28).take (b.length - 36)) := by
    rw [slice_ok b _ _ (by simp only [headerLen]; omega)
      (by simp only [len, headerLen]; omega) (by simp only [len]; omega)]
    congr 2
    simp only [len, headerLen]; omega
  have s2 : slice b (len b - 8) (len b - 4) = .ok ((b.drop (b.length - 8)).take 4) := by
    rw [slice_ok b _ _ (by simp only [len]; omega)
      (by simp only [len]; omega) (by simp only [len]; omega)]
    congr 2
    · simp only [len]; omega
    · congr 1; simp only [len]; omega
  have s3 : slice b 4 (len b - 8) = .ok ((b.drop 4).take (b.length - 12)) := by
    rw [slice_ok b _ _ (by omega)
      (by simp only [len]; omega) (by simp only [len]; omega)]
    congr 2
    simp only [len]; omega
  have s4 : slice b 4 28 = .ok ((b.drop 4).take 24) := by
    rw [slice_ok b _ _ (by omega) (by omega) (by omega)]
    rfl
  have s5 : slice b 28 (len b - 8) = .ok ((b.drop 28).take (b.length - 36)) := by
    rw [slice_ok b _ _ (by omega)
      (by simp only [len]; omega) (by simp only [len]; omega)]
    congr 2
    simp only [len]; omega
  have s6 : slice b 28 (len b - 4) = .ok ((b.drop 28).take (b.length - 32)) := by
    rw [slice_ok b _ _ (by omega)
      (by simp only [len]; omega) (by simp only [len]; omega)]
    congr 2
    simp only [len]; omega
  have u : BigEndian.Uint32 ((b.drop (b.length - 8)).take 4) =
      .ok (ofBe32 ((b.drop (b.length - 8)).take 4)) :=
    Uint32_ok _ (by simp; omega)
  have hh : Header.UnmarshalBinary ((b.drop 4).take 24) Header.zero =
      (.ok (), Header.ofWire ((b.drop 4).take 24)) :=
    Header.unmarshal_of_length _ _ (by simp; omega)
  have mk : make (len ((b.drop 28).take (b.length - 36))) =
      .ok (List.replicate (b.length - 36) 0) := by
    rw [make_ok _ (by simp only [len]; omega)]
    congr 2
    simp only [len, List.length_take, List.length_drop]; omega
  have cp : copy (List.replicate (b.length - 36) 0) ((b.drop 28).take (b.length - 32)) =
      (b.drop 28).take (b.length - 36) := by
    unfold copy
    have h1 : (List.replicate (b.length - 36) (0 : Byte)).length = b.length - 36 := by simp
    have h2 : ((b.drop 28).take (b.length - 32)).length = b.length - 32 := by simp; omega
    have h3 : b.length - 36 - (b.length - 32) = 0 := by omega
    rw [h1, h2, List.take_take, List.drop_replicate, Nat.min_eq_left (by omega), h3]
    simp
  unfold Frame.UnmarshalBinary
  rw [Meth.returnIf_bind, if_neg hlt, i0, Meth.lift_ok_bind, Meth.returnIf_bind,
    i1, Meth.lift_ok_bind, Meth.returnIf_bind, i2, Meth.lift_ok_bind, Meth.returnIf_bind,
    j3, Meth.lift_ok_bind, Meth.returnIf_bind, j2, Meth.lift_ok_bind, Meth.returnIf_bind,
    j1, Meth.lift_ok_bind, Meth.returnIf_bind, s1, Meth.lift_ok_bind, Meth.returnIf_bind,
    s2, Meth.lift_ok_bind, u, Meth.lift_ok_bind, s3, Meth.lift_ok_bind, Meth.pure_bind,
    Meth.returnIf_bind, i3, Meth.lift_ok_bind, Meth.assign_bind, j4, Meth.lift_ok_bind,
    Meth.assign_bind, s4, Meth.lift_ok_bind, hh]
  dsimp only
  rw [Meth.assign_bind, s5, Meth.lift_ok_bind, mk, Meth.lift_ok_bind, s6, Meth.lift_ok_bind,
    Meth.pure_bind, cp, Meth.assign_apply]

/-! ## CRC-32: every single-byte change is detected -/

namespace crc32

theorem IEEE_lt : IEEE < 2 ^ 32 := by decide

theorem IEEE_ge : 2 ^ 31 ≤ IEEE := by decide

theorem shiftStep_eq (poly crc : Nat) :
    shiftStep poly crc = if crc % 2 = 1 then (crc / 2) ^^^ poly else crc / 2 := by
  simp [shiftStep, Nat.shiftRight_eq_div_pow]

/-- The shift step is linear over exclusive or. -/
theorem shiftStep_xor (poly a b : Nat) :
    shiftStep poly (a ^^^ b) = shiftStep poly a ^^^ shiftStep poly b := by
  simp only [shiftStep_eq, Nat.xor_div_two]
  have hab : (a ^^^ b) % 2 = (a + b) % 2 := Nat.xor_mod_two_eq
  by_cases ha : a % 2 = 1 <;> by_cases hb : b % 2 = 1
  · have h : ¬ ((a ^^^ b) % 2 = 1) := by omega
    rw [if_neg h, if_pos ha, if_pos hb, Nat.xor_assoc, Nat.xor_comm poly,
      Nat.xor_assoc, Nat.xor_self, Nat.xor_zero]
  · have h : (a ^^^ b) % 2 = 1 := by omega
    rw [if_pos h, if_pos ha, if_neg hb, Nat.xor_assoc, Nat.xor_comm (b / 2), Nat.xor_assoc]
  · have h : (a ^^^ b) % 2 = 1 := by omega
    rw [if_pos h, if_neg ha, if_pos hb, Nat.xor_assoc]
  · have h : ¬ ((a ^^^ b) % 2 = 1) := by omega
    rw [if_neg h, if_neg ha, if_neg hb]

theorem shiftStep_lt (c : Nat) (hc : c < 2 ^ 32) : shiftStep IEEE c < 2 ^ 32 := by
  rw [shiftStep_eq]
  have h2 : c / 2 < 2 ^ 32 := by omega
  split
  · exact Nat.xor_lt_two_pow h2 IEEE_lt
  · exact h2

theorem shiftStep_eq_zero (c : Nat) (hc : c < 2 ^ 32) (h : shiftStep IEEE c = 0) : c = 0 := by
  rw [shiftStep_eq] at h
  split at h
  · have h1 : c / 2 = IEEE := Nat.xor_eq_zero.mp h
    have h2 := IEEE_ge
    omega
  · omega

theorem shiftStep_inj (a b : Nat) (ha : a < 2 ^ 32) (hb : b < 2 ^ 32)
    (h : shiftStep IEEE a = shiftStep IEEE b) : a = b := by
  have h1 : shiftStep IEEE (a ^^^ b) = 0 := by
    rw [shiftStep_xor, h, Nat.xor_self]
  exact Nat.xor_eq_zero.mp (shiftStep_eq_zero _ (Nat.xor_lt_two_pow ha hb) h1)

theorem iterate_xor (poly : Nat) (n a b : Nat) :
    (shiftStep poly)^[n] (a ^^^ b) = (shiftStep poly)^[n] a ^^^ (shiftStep poly)^[n] b := by
  induction n generalizing a b with
  | zero => rfl
  | succ n ih => simp only [Function.iterate_succ, Function.comp_apply, shiftStep_xor, ih]

theorem iterate_lt (n c : Nat) (hc : c < 2 ^ 32) : (shiftStep IEEE)^[n] c < 2 ^ 32 := by
  induction n generalizing c with
  | zero => exact hc
  | succ n ih =>
    simp only [Function.iterate_succ, Function.comp_apply]
    exact ih _ (shiftStep_lt c hc)

theorem iterate_inj (n a b : Nat) (ha : a < 2 ^ 32) (hb : b < 2 ^ 32)
    (h : (shiftStep IEEE)^[n] a = (shiftStep IEEE)^[n] b) : a = b := by
  induction n generalizing a b with
  | zero => exact h
  | succ n ih =>
    simp only [Function.iterate_succ, Function.comp_apply] at h
    exact shiftStep_inj a b ha hb (ih _ _ (shiftStep_lt a ha) (shiftStep_lt b hb) h)

theorem iterate_shiftLeft (poly n x : Nat) : (shiftStep poly)^[n] (x <<< n) = x := by
  induction n with
  | zero => simp
  | succ n ih =>
    have h1 : x <<< (n + 1) = 2 * (x <<< n) := by
      rw [Nat.shiftLeft_eq, Nat.shiftLeft_eq, Nat.pow_succ]; ring
    have h2 : shiftStep poly (x <<< (n + 1)) = x <<< n := by
      rw [shiftStep_eq, h1]
      have : ¬ ((2 * (x <<< n)) % 2 = 1) := by omega
      rw [if_neg this]
      omega
    rw [Function.iterate_succ, Function.comp_apply, h2, ih]

theorem split_low_byte (c v : Nat) (hv : v < 256) :
    c ^^^ v = ((c % 256) ^^^ v) ^^^ ((c >>> 8) <<< 8) := by
  apply Nat.eq_of_testBit_eq
  intro i
  have h256 : (256 : Nat) = 2 ^ 8 := by norm_num
  simp only [Nat.testBit_xor, Nat.testBit_shiftLeft, Nat.testBit_shiftRight, h256,
    Nat.testBit_mod_two_pow]
  by_cases hi : i < 8
  · have : ¬ (i ≥ 8) := by omega
    simp [hi, this]
  · have h8 : i ≥ 8 := by omega
    have hvi : v.testBit i = false := by
      apply Nat.testBit_lt_two_pow
      calc v < 2 ^ 8 := by omega
        _ ≤ 2 ^ i := Nat.pow_le_pow_right (by norm_num) h8
    have : 8 + (i - 8) = i := by omega
    simp [hi, h8, hvi, this]

/-- The table-driven byte update is eight shift steps on the state xor the byte. -/
theorem updateByte_eq (poly crc : Nat) (v : Byte) :
    updateByte poly crc v = (shiftStep poly)^[8] (crc ^^^ v.val) := by
  unfold updateByte tableEntry
  rw [toByte_val]
  conv_rhs => rw [split_low_byte crc v.val v.isLt, iterate_xor, iterate_shiftLeft]

theorem updateByte_lt (crc : Nat) (v : Byte) (hc : crc < 2 ^ 32) :
    updateByte IEEE crc v < 2 ^ 32 := by
  rw [updateByte_eq]
  exact iterate_lt 8 _ (Nat.xor_lt_two_pow hc (by have := v.isLt; omega))

theorem updateByte_inj_state (c1 c2 : Nat) (v : Byte) (h1 : c1 < 2 ^ 32) (h2 : c2 < 2 ^ 32)
    (h : updateByte IEEE c1 v = updateByte IEEE c2 v) : c1 = c2 := by
  rw [updateByte_eq, updateByte_eq] at h
  have hv : v.val < 2 ^ 32 := by have := v.isLt; omega
  have := iterate_inj 8 _ _ (Nat.xor_lt_two_pow h1 hv) (Nat.xor_lt_two_pow h2 hv) h
  exact Nat.xor_left_injective this

theorem updateByte_inj_byte (c : Nat) (v1 v2 : Byte) (hc : c < 2 ^ 32)
    (h : updateByte IEEE c v1 = updateByte IEEE c v2) : v1 = v2 := by
  rw [updateByte_eq, updateByte_eq] at h
  have hv1 : v1.val < 2 ^ 32 := by have := v1.isLt; omega
  have hv2 : v2.val < 2 ^ 32 := by have := v2.isLt; omega
  have := iterate_inj 8 _ _ (Nat.xor_lt_two_pow hc hv1) (Nat.xor_lt_two_pow hc hv2) h
  exact Fin.ext (Nat.xor_right_injective this)

theorem foldl_lt (p : List Byte) (c : Nat) (hc : c < 2 ^ 32) :
    p.foldl (updateByte IEEE) c < 2 ^ 32 := by
  induction p generalizing c with
  | nil => exact hc
  | cons v p ih => exact ih _ (updateByte_lt c v hc)

theorem foldl_inj (p : List Byte) (c1 c2 : Nat) (h1 : c1 < 2 ^ 32) (h2 : c2 < 2 ^ 32)
    (h : p.foldl (updateByte IEEE) c1 = p.foldl (updateByte IEEE) c2) : c1 = c2 := by
  induction p generalizing c1 c2 with
  | nil => exact h
  | cons v p ih =>
    exact updateByte_inj_state c1 c2 v h1 h2
      (ih _ _ (updateByte_lt c1 v h1) (updateByte_lt c2 v h2) h)

theorem simpleUpdate_lt (p : List Byte) : simpleUpdate 0 IEEE p < 2 ^ 32 := by
  unfold simpleUpdate
  exact Nat.xor_lt_two_pow (foldl_lt p _ (by decide)) (by decide)

theorem ChecksumIEEE_val (p : List Byte) : (ChecksumIEEE p).val = simpleUpdate 0 IEEE p := by
  unfold ChecksumIEEE
  rw [toU32_val]
  exact Nat.mod_eq_of_lt (simpleUpdate_lt p)

/-- Changing one byte of the data changes the checksum. -/
theorem ChecksumIEEE_single_byte (pre suf : List Byte) (v1 v2 : Byte) (hv : v1 ≠ v2) :
    ChecksumIEEE (pre ++ v1 :: suf) ≠ ChecksumIEEE (pre ++ v2 :: suf) := by
  intro h
  have h' := congrArg Fin.val h
  rw [ChecksumIEEE_val, ChecksumIEEE_val] at h'
  unfold simpleUpdate at h'
  have h1 := Nat.xor_left_injective h'
  simp only [List.foldl_append, List.foldl_cons] at h1
  have hs : List.foldl (updateByte IEEE) (0 ^^^ 0xffffffff) pre < 2 ^ 32 :=
    foldl_lt pre _ (by decide)
  have h2 := foldl_inj suf _ _ (updateByte_lt _ v1 hs) (updateByte_lt _ v2 hs) h1
  exact hv (updateByte_inj_byte _ v1 v2 hs h2)

end crc32

/-! ## Decoding a buffer given by its five regions -/

theorem getD_segment (xs zs : List Byte) (y d : Byte) (i : Nat) (hi : i = xs.length) :
    (xs ++ y :: zs).getD i d = y := by
  subst hi
  rw [List.getD_eq_getElem?_getD, List.getElem?_append_right (le_refl _)]
  simp

theorem take_drop_segment (xs ys zs : List Byte) (i n : Nat) (hi : i = xs.length)
    (hn : n = ys.length) : ((xs ++ ys ++ zs).drop i).take n = ys := by
  subst hi hn
  simp

theorem Frame.unmarshal_segments (a0 a1 a2 sof : Byte) (B C : List Byte)
    (d0 d1 d2 d3 eof e1 e2 e3 : Byte) (hB : B.length = 24) (f : Frame) :
    Frame.UnmarshalBinary
        ([a0, a1, a2, sof] ++ B ++ C ++ [d0, d1, d2, d3] ++ [eof, e1, e2, e3]) f =
      if a0 ≠ 0 then (.error .ErrInvalidFrame, f)
      else if a1 ≠ 0 then (.error .ErrInvalidFrame, f)
      else if a2 ≠ 0 then (.error .ErrInvalidFrame, f)
      else if e1 ≠ 0 then (.error .ErrInvalidFrame, f)
      else if e2 ≠ 0 then (.error .ErrInvalidFrame, f)
      else if e3 ≠ 0 then (.error .ErrInvalidFrame, f)
      else if len C % 4 ≠ 0 then (.error .ErrInvalidFrame, f)
      else if ofBe32 [d0, d1, d2, d3] ≠ crc32.ChecksumIEEE (B ++ C) then
        (.error .ErrInvalidCRC, f)
      else (.ok (), ⟨sof, some (Header.ofWire B), C, eof⟩) := by
  have hL : ([a0, a1, a2, sof] ++ B ++ C ++ [d0, d1, d2, d3] ++ [eof, e1, e2, e3]).length =
      36 + C.length := by simp [hB]; omega
  have g0 : ([a0, a1, a2, sof] ++ B ++ C ++ [d0, d1, d2, d3] ++ [eof, e1, e2, e3]).getD 0 0 = a0 :=
    rfl
  have g1 : ([a0, a1, a2, sof] ++ B ++ C ++ [d0, d1, d2, d3] ++ [eof, e1, e2, e3]).getD 1 0 = a1 :=
    rfl
  have g2 : ([a0, a1, a2, sof] ++ B ++ C ++ [d0, d1, d2, d3] ++ [eof, e1, e2, e3]).getD 2 0 = a2 :=
    rfl
  have g3 : ([a0, a1, a2, sof] ++ B ++ C ++ [d0, d1, d2, d3] ++ [eof, e1, e2, e3]).getD 3 0 = sof :=
    rfl
  have k4 : ([a0, a1, a2, sof] ++ B ++ C ++ [d0, d1, d2, d3] ++ [eof, e1, e2, e3]).getD
      (36 + C.length - 4) 0 = eof := by
    have h : [a0, a1, a2, sof] ++ B ++ C ++ [d0, d1, d2, d3] ++ [eof, e1, e2, e3] =
        ([a0, a1, a2, sof] ++ B ++ C ++ [d0, d1, d2, d3]) ++ eof :: [e1, e2, e3] := by simp
    rw [h, getD_segment _ _ _ _ _ (by simp [hB]; omega)]
  have k3 : ([a0, a1, a2, sof] ++ B ++ C ++ [d0, d1, d2, d3] ++ [eof, e1, e2, e3]).getD
      (36 + C.length - 3) 0 = e1 := by
    have h : [a0, a1, a2, sof] ++ B ++ C ++ [d0, d1, d2, d3] ++ [eof, e1, e2, e3] =
        ([a0, a1, a2, sof] ++ B ++ C ++ [d0, d1, d2, d3] ++ [eof]) ++ e1 :: [e2, e3] := by simp
    rw [h, getD_segment _ _ _ _ _ (by simp [hB]; omega)]
  have k2 : ([a0, a1, a2, sof] ++ B ++ C ++ [d0, d1, d2, d3] ++ [eof, e1, e2, e3]).getD
      (36 + C.length - 2) 0 = e2 := by
    have h : [a0, a1, a2, sof] ++ B ++ C ++ [d0, d1, d2, d3] ++ [eof, e1, e2, e3] =
        ([a0, a1, a2, sof] ++ B ++ C ++ [d0, d1, d2, d3] ++ [eof, e1]) ++ e2 :: [e3] := by simp
    rw [h, getD_segment _ _ _ _ _ (by simp [hB]; omega)]
  have k1 : ([a0, a1, a2, sof] ++ B ++ C ++ [d0, d1, d2, d3] ++ [eof, e1, e2, e3]).getD
      (36 + C.length - 1) 0 = e3 := by
    have h : [a0, a1, a2, sof] ++ B ++ C ++ [d0, d1, d2, d3] ++ [eof, e1, e2, e3] =
        ([a0, a1, a2, sof] ++ B ++ C ++ [d0, d1, d2, d3] ++ [eof, e1, e2]) ++ e3 :: [] := by simp
    rw [h, getD_segment _ _ _ _ _ (by simp [hB]; omega)]
  have t1 : (([a0, a1, a2, sof] ++ B ++ C ++ [d0, d1, d2, d3] ++ [eof, e1, e2, e3]).drop 28).take
      (36 + C.length - 36) = C := by
    have h : [a0, a1, a2, sof] ++ B ++ C ++ [d0, d1, d2, d3] ++ [eof, e1, e2, e3] =
        ([a0, a1, a2, sof] ++ B) ++ C ++ ([d0, d1, d2, d3] ++ [eof, e1, e2, e3]) := by simp
    rw [h, take_drop_segment _ _ _ _ _ (by simp [hB]) (by omega)]
  have t2 : (([a0, a1, a2, sof] ++ B ++ C ++ [d0, d1, d2, d3] ++ [eof, e1, e2, e3]).drop
      (36 + C.length - 8)).take 4 = [d0, d1, d2, d3] := by
    have h : [a0, a1, a2, sof] ++ B ++ C ++ [d0, d1, d2, d3] ++ [eof, e1, e2, e3] =
        ([a0, a1, a2, sof] ++ B ++ C) ++ [d0, d1, d2, d3] ++ [eof, e1, e2, e3] := by simp
    rw [h, take_drop_segment _ _ _ _ _ (by simp [hB]; omega) (by simp)]
  have t3 : (([a0, a1, a2, sof] ++ B ++ C ++ [d0, d1, d2, d3] ++ [eof, e1, e2, e3]).drop 4).take
      (36 + C.length - 12) = B ++ C := by
    have h : [a0, a1, a2, sof] ++ B ++ C ++ [d0, d1, d2, d3] ++ [eof, e1, e2, e3] =
        [a0, a1, a2, sof] ++ (B ++ C) ++ ([d0, d1, d2, d3] ++ [eof, e1, e2, e3]) := by simp
    rw [h, take_drop_segment _ _ _ _ _ (by simp) (by simp [hB]; omega)]
  have t4 : (([a0, a1, a2, sof] ++ B ++ C ++ [d0, d1, d2, d3] ++ [eof, e1, e2, e3]).drop 4).take
      24 = B := by
    have h : [a0, a1, a2, sof] ++ B ++ C ++ [d0, d1, d2, d3] ++ [eof, e1, e2, e3] =
        [a0, a1, a2, sof] ++ B ++ (C ++ [d0, d1, d2, d3] ++ [eof, e1, e2, e3]) := by simp
    rw [h, take_drop_segment _ _ _ _ _ (by simp) (by simp [hB])]
  rw [Frame.unmarshal_long _ _ (by omega), hL, g0, g1, g2, g3, k4, k3, k2, k1, t1, t2, t3, t4]

theorem segments_exist (b : List Byte) (hb : 36 ≤ b.length) :
    ∃ (a0 a1 a2 sof : Byte) (B C : List Byte) (d0 d1 d2 d3 eof e1 e2 e3 : Byte),
      B.length = 24 ∧
      b = [a0, a1, a2, sof] ++ B ++ C ++ [d0, d1, d2, d3] ++ [eof, e1, e2, e3] := by
  obtain ⟨a0, b, rfl⟩ := List.exists_cons_of_length_pos (l := b) (by omega)
  obtain ⟨a1, b, rfl⟩ := List.exists_cons_of_length_pos (l := b) (by simp at hb; omega)
  obtain ⟨a2, b, rfl⟩ := List.exists_cons_of_length_pos (l := b) (by simp at hb; omega)
  obtain ⟨sof, b, rfl⟩ := List.exists_cons_of_length_pos (l := b) (by simp at hb; omega)
  simp only [List.length_cons] at hb
  have h1 : b = b.take 24 ++ b.drop 24 := (List.take_append_drop 24 b).symm
  have h2 : b.drop 24 = (b.drop 24).take (b.length - 32) ++ (b.drop 24).drop (b.length - 32) :=
    (List.take_append_drop _ _).symm
  have h3 : ((b.drop 24).drop (b.length - 32)).length = 8 := by simp; omega
  obtain ⟨d0, t, ht⟩ := List.exists_cons_of_length_pos (l := (b.drop 24).drop (b.length - 32))
    (by omega)
  rw [ht] at h3
  obtain ⟨d1, t, rfl⟩ := List.exists_cons_of_length_pos (l := t) (by simp at h3; omega)
  obtain ⟨d2, t, rfl⟩ := List.exists_cons_of_length_pos (l := t) (by simp at h3; omega)
  obtain ⟨d3, t, rfl⟩ := List.exists_cons_of_length_pos (l := t) (by simp at h3; omega)
  obtain ⟨eof, t, rfl⟩ := List.exists_cons_of_length_pos (l := t) (by simp at h3; omega)
  obtain ⟨e1, t, rfl⟩ := List.exists_cons_of_length_pos (l := t) (by simp at h3; omega)
  obtain ⟨e2, t, rfl⟩ := List.exists_cons_of_length_pos (l := t) (by simp at h3; omega)
  obtain ⟨e3, t, rfl⟩ := List.exists_cons_of_length_pos (l := t) (by simp at h3; omega)
  have ht0 : t = [] := by
    apply List.eq_nil_of_length_eq_zero
    simp only [List.length_cons] at h3
    omega
  subst ht0
  refine ⟨a0, a1, a2, sof, b.take 24, (b.drop 24).take (b.length - 32),
    d0, d1, d2, d3, eof, e1, e2, e3, by simp; omega, ?_⟩
  rw [ht] at h2
  conv_lhs => rw [h1, h2]
  simp

/-! ## Encoding and decoding composed -/

theorem ofBe32_be32 (v : U32) : ofBe32 (be32 v) = v := by
  simp only [ofBe32, be32, List.getD_cons_zero, List.getD_cons_succ]
  exact toU32_bytes v

theorem be32_ofBe32 (d0 d1 d2 d3 : Byte) : be32 (ofBe32 [d0, d1, d2, d3]) = [d0, d1, d2, d3] := by
  obtain ⟨p0, p1, p2, p3⟩ := toByte_be32 d0 d1 d2 d3
  simp only [ofBe32, be32, List.getD_cons_zero, List.getD_cons_succ, p0, p1, p2, p3]

theorem ofBe32_val (d0 d1 d2 d3 : Byte) :
    (ofBe32 [d0, d1, d2, d3]).val = beNat [d0, d1, d2, d3] := by
  simp only [ofBe32, List.getD_cons_zero, List.getD_cons_succ, toU32_val, be32_val, beNat,
    List.foldl_cons, List.foldl_nil]
  have := d0.isLt; have := d1.isLt; have := d2.isLt; have := d3.isLt
  omega

theorem beNat_be32 (v : U32) : beNat (be32 v) = v.val := by
  have h := ofBe32_val (toByte (v.val >>> 24)) (toByte (v.val >>> 16)) (toByte (v.val >>> 8))
    (toByte v.val)
  have h2 := ofBe32_be32 v
  unfold be32 at h2 ⊢
  rw [← h, h2]

theorem padLen_of_aligned (n : Nat) (h : n % 4 = 0) : padLen n = 0 := by
  unfold padLen; omega

theorem padded_of_aligned (p : List Byte) (h : p.length % 4 = 0) : padded p = p := by
  simp [padded, padLen_of_aligned _ h]

theorem padded_aligned (p : List Byte) : (padded p).length % 4 = 0 := by
  rw [padded_length]; exact padLen_add _

theorem Frame.wire_total_length (sof eof : Byte) (h : Fibrechannel.Header) (p : List Byte) :
    (Frame.wire sof eof h p).length = 36 + (p.length + padLen p.length) := by
  simp [Frame.wire, be32, padded_length, Header.wire_length]
  omega

theorem Frame.unmarshal_wire (sof eof : Byte) (h : Fibrechannel.Header) (p : List Byte) (g : Frame) :
    Frame.UnmarshalBinary (Frame.wire sof eof h p) g =
      (.ok (), ⟨sof, some h, padded p, eof⟩) := by
  have hal : ¬ (len (padded p) % 4 ≠ 0) := by
    have := padded_aligned p
    simp only [len]; omega
  have hcrc : ¬ (ofBe32 (be32 (crc32.ChecksumIEEE (h.wire ++ padded p))) ≠
      crc32.ChecksumIEEE (h.wire ++ padded p)) := by
    rw [ofBe32_be32]; exact fun hne => hne rfl
  unfold Frame.wire
  unfold be32 at hcrc ⊢
  rw [Frame.unmarshal_segments _ _ _ _ _ _ _ _ _ _ _ _ _ _ (Header.wire_length h),
    if_neg (by decide), if_neg (by decide), if_neg (by decide), if_neg (by decide),
    if_neg (by decide), if_neg (by decide), if_neg hal, if_neg hcrc, Header.ofWire_wire]

theorem Frame.marshal_of_unmarshal (b : List Byte) (f g : Frame)
    (h : Frame.UnmarshalBinary b f = (.ok (), g)) : g.MarshalBinary = .ok b := by
  by_cases hb : b.length < 36
  · rw [Frame.unmarshal_short b f hb] at h
    simp at h
  obtain ⟨a0, a1, a2, sof, B, C, d0, d1, d2, d3, eof, e1, e2, e3, hB, rfl⟩ :=
    segments_exist b (by omega)
  rw [Frame.unmarshal_segments _ _ _ _ _ _ _ _ _ _ _ _ _ _ hB] at h
  split at h
  · simp at h
  split at h
  · simp at h
  split at h
  · simp at h
  split at h
  · simp at h
  split at h
  · simp at h
  split at h
  · simp at h
  split at h
  · simp at h
  split at h
  · simp at h
  rename_i h0 h1 h2 h3 h4 h5 h6 h7
  simp only [ne_eq, Decidable.not_not] at h0 h1 h2 h3 h4 h5 h6 h7
  have hg : g = ⟨sof, some (Header.ofWire B), C, eof⟩ := by
    simp only [Prod.mk.injEq, true_and] at h
    exact h.symm
  have hC : C.length % 4 = 0 := by simp only [len] at h6; omega
  subst hg h0 h1 h2 h3 h4 h5
  rw [Frame.marshal_some, Frame.wire, Header.wire_ofWire B hB, padded_of_aligned C hC, ← h7,
    be32_ofBe32]

/-! ## The three outcomes of `Frame.UnmarshalBinary` on a long enough buffer -/

theorem Frame.unmarshal_invalidFrame (b : List Byte) (f : Frame) (hb : 36 ≤ b.length)
    (h : b.getD 0 0 ≠ 0 ∨ b.getD 1 0 ≠ 0 ∨ b.getD 2 0 ≠ 0 ∨ b.getD (b.length - 3) 0 ≠ 0 ∨
      b.getD (b.length - 2) 0 ≠ 0 ∨ b.getD (b.length - 1) 0 ≠ 0 ∨ (b.length - 36) % 4 ≠ 0) :
    Frame.UnmarshalBinary b f = (.error .ErrInvalidFrame, f) := by
  have hl : len ((b.drop 28).take (b.length - 36)) = ((b.length - 36 : Nat) : Int) := by
    simp only [len, List.length_take, List.length_drop]; omega
  rw [Frame.unmarshal_long b f hb]
  by_cases h0 : b.getD 0 0 ≠ 0
  · rw [if_pos h0]
  rw [if_neg h0]
  by_cases h1 : b.getD 1 0 ≠ 0
  · rw [if_pos h1]
  rw [if_neg h1]
  by_cases h2 : b.getD 2 0 ≠ 0
  · rw [if_pos h2]
  rw [if_neg h2]
  by_cases h3 : b.getD (b.length - 3) 0 ≠ 0
  · rw [if_pos h3]
  rw [if_neg h3]
  by_cases h4 : b.getD (b.length - 2) 0 ≠ 0
  · rw [if_pos h4]
  rw [if_neg h4]
  by_cases h5 : b.getD (b.length - 1) 0 ≠ 0
  · rw [if_pos h5]
  rw [if_neg h5]
  have h6 : (b.length - 36) % 4 ≠ 0 := by tauto
  rw [if_pos (by rw [hl]; omega)]

theorem Frame.unmarshal_valid (b : List Byte) (f : Frame) (hb : 36 ≤ b.length)
    (h0 : b.getD 0 0 = 0) (h1 : b.getD 1 0 = 0) (h2 : b.getD 2 0 = 0)
    (h3 : b.getD (b.length - 3) 0 = 0) (h4 : b.getD (b.length - 2) 0 = 0)
    (h5 : b.getD (b.length - 1) 0 = 0) (h6 : (b.length - 36) % 4 = 0) :
    Frame.UnmarshalBinary b f =
      if ofBe32 ((b.drop (b.length - 8)).take 4) ≠
          crc32.ChecksumIEEE ((b.drop 4).take (b.length - 12)) then (.error .ErrInvalidCRC, f)
      else (.ok (), ⟨b.getD 3 0, some (Header.ofWire ((b.drop 4).take 24)),
        (b.drop 28).take (b.length - 36), b.getD (b.length - 4) 0⟩) := by
  have hl : len ((b.drop 28).take (b.length - 36)) = ((b.length - 36 : Nat) : Int) := by
    simp only [len, List.length_take, List.length_drop]; omega
  rw [Frame.unmarshal_long b f hb, if_neg (not_not.mpr h0), if_neg (not_not.mpr h1),
    if_neg (not_not.mpr h2), if_neg (not_not.mpr h3), if_neg (not_not.mpr h4), if_neg (not_not.mpr h5),
    if_neg (by rw [hl]; omega)]

theorem ofBe32_val_of_length (w : List Byte) (hw : w.length = 4) : (ofBe32 w).val = beNat w := by
  obtain ⟨d0, w, rfl⟩ := List.exists_cons_of_length_pos (l := w) (by omega)
  obtain ⟨d1, w, rfl⟩ := List.exists_cons_of_length_pos (l := w) (by simp at hw; omega)
  obtain ⟨d2, w, rfl⟩ := List.exists_cons_of_length_pos (l := w) (by simp at hw; omega)
  obtain ⟨d3, w, rfl⟩ := List.exists_cons_of_length_pos (l := w) (by simp at hw; omega)
  have : w = [] := by
    apply List.eq_nil_of_length_eq_zero
    simp only [List.length_cons] at hw
    omega
  subst this
  exact ofBe32_val d0 d1 d2 d3

/-- On a long enough buffer the outcome is success or one of the two frame errors, and an
error leaves the receiver as it was. -/
theorem Frame.unmarshal_outcome (b : List Byte) (f : Frame) (hb : 36 ≤ b.length) :
    Frame.UnmarshalBinary b f = (.error .ErrInvalidFrame, f) ∨
    Frame.UnmarshalBinary b f = (.error .ErrInvalidCRC, f) ∨
    (Frame.UnmarshalBinary b f).1 = .ok () := by
  by_cases h : b.getD 0 0 ≠ 0 ∨ b.getD 1 0 ≠ 0 ∨ b.getD 2 0 ≠ 0 ∨ b.getD (b.length - 3) 0 ≠ 0 ∨
      b.getD (b.length - 2) 0 ≠ 0 ∨ b.getD (b.length - 1) 0 ≠ 0 ∨ (b.length - 36) % 4 ≠ 0
  · exact Or.inl (Frame.unmarshal_invalidFrame b f hb h)
  · simp only [not_or, ne_eq, Decidable.not_not] at h
    obtain ⟨h0, h1, h2, h3, h4, h5, h6⟩ := h
    rw [Frame.unmarshal_valid b f hb h0 h1 h2 h3 h4 h5 h6]
    split
    · exact Or.inr (Or.inl rfl)
    · exact Or.inr (Or.inr rfl)

/-! ## Buffers that differ from an encoding in one byte -/

theorem set_segment (xs zs : List Byte) (y v : Byte) (i : Nat) (hi : i = xs.length) :
    (xs ++ y :: zs).set i v = xs ++ v :: zs := by
  subst hi
  simp

theorem flipped_byte_ne (x : Byte) (k : Nat) (hk : k < 8) : toByte (x.val ^^^ 2 ^ k) ≠ x := by
  intro h
  have h1 : x.val ^^^ 2 ^ k < 2 ^ 8 :=
    Nat.xor_lt_two_pow x.isLt (Nat.pow_lt_pow_right (by norm_num) hk)
  have h1b : x.val ^^^ 2 ^ k < 256 := h1
  have h2 := congrArg Fin.val h
  rw [toByte_val, Nat.mod_eq_of_lt h1b] at h2
  have h3 : x.val ^^^ 2 ^ k = x.val ^^^ 0 := by rw [h2, Nat.xor_zero]
  have h4 : 2 ^ k = 0 := Nat.xor_right_injective h3
  have h5 : 0 < 2 ^ k := Nat.pow_pos (by norm_num)
  omega

theorem split_at_index (R : List Byte) (j : Nat) (hj : j < R.length) :
    ∃ pre v suf, R = pre ++ v :: suf ∧ pre.length = j := by
  refine ⟨R.take j, R[j], R.drop (j + 1), ?_, ?_⟩
  · rw [← List.drop_eq_getElem_cons hj, List.take_append_drop]
  · simp; omega

theorem Frame.unmarshal_flipped (sof eof : Byte) (h : Fibrechannel.Header) (p : List Byte)
    (g : Frame) (i k : Nat) (hi : 4 ≤ i) (hi2 : i + 9 ≤ (Frame.wire sof eof h p).length)
    (hk : k < 8) :
    Frame.UnmarshalBinary (flipBit (Frame.wire sof eof h p) i k) g =
      (.error .ErrInvalidCRC, g) := by
  have hlen := Frame.wire_total_length sof eof h p
  have hRl : (h.wire ++ padded p).length = 24 + (p.length + padLen p.length) := by
    simp [Header.wire_length, padded_length]
  obtain ⟨pre, v, suf, hR, hpre⟩ := split_at_index (h.wire ++ padded p) (i - 4) (by omega)
  have hRl2 : (pre ++ v :: suf).length = 24 + (p.length + padLen p.length) := by
    rw [← hR]; exact hRl
  have hw : Frame.wire sof eof h p =
      ([0, 0, 0, sof] ++ pre) ++ v ::
        (suf ++ be32 (crc32.ChecksumIEEE (pre ++ v :: suf)) ++ [eof, 0, 0, 0]) := by
    unfold Frame.wire
    rw [List.append_assoc [0, 0, 0, sof], hR]
    simp
  have hi3 : i = ([0, 0, 0, sof] ++ pre).length := by simp [hpre]; omega
  have hne := flipped_byte_ne v k hk
  have hsplit : pre ++ toByte (v.val ^^^ 2 ^ k) :: suf =
      (pre ++ toByte (v.val ^^^ 2 ^ k) :: suf).take 24 ++
        (pre ++ toByte (v.val ^^^ 2 ^ k) :: suf).drop 24 := (List.take_append_drop _ _).symm
  have hl2 : (pre ++ toByte (v.val ^^^ 2 ^ k) :: suf).length =
      24 + (p.length + padLen p.length) := by
    simp only [List.length_append, List.length_cons] at hRl2 ⊢
    exact hRl2
  have hB : ((pre ++ toByte (v.val ^^^ 2 ^ k) :: suf).take 24).length = 24 := by
    rw [List.length_take, hl2]; omega
  have hC : ¬ (len ((pre ++ toByte (v.val ^^^ 2 ^ k) :: suf).drop 24) % 4 ≠ 0) := by
    have := padLen_add p.length
    simp only [len, List.length_drop, hl2]; omega
  have hfl : flipBit (Frame.wire sof eof h p) i k =
      [0, 0, 0, sof] ++ (pre ++ toByte (v.val ^^^ 2 ^ k) :: suf).take 24 ++
        (pre ++ toByte (v.val ^^^ 2 ^ k) :: suf).drop 24 ++
        be32 (crc32.ChecksumIEEE (pre ++ v :: suf)) ++ [eof, 0, 0, 0] := by
    unfold flipBit
    rw [hw, getD_segment _ _ _ _ _ hi3, set_segment _ _ _ _ _ hi3,
      List.append_assoc [0, 0, 0, sof] (List.take 24 _), ← hsplit]
    simp
  have hcrc : ofBe32 (be32 (crc32.ChecksumIEEE (pre ++ v :: suf))) ≠
      crc32.ChecksumIEEE ((pre ++ toByte (v.val ^^^ 2 ^ k) :: suf).take 24 ++
        (pre ++ toByte (v.val ^^^ 2 ^ k) :: suf).drop 24) := by
    rw [ofBe32_be32, ← hsplit]
    exact crc32.ChecksumIEEE_single_byte pre suf v _ (Ne.symm hne)
  rw [hfl]
  unfold be32 at hcrc ⊢
  rw [Frame.unmarshal_segments _ _ _ _ _ _ _ _ _ _ _ _ _ _ hB,
    if_neg (by decide), if_neg (by decide), if_neg (by decide), if_neg (by decide),
    if_neg (by decide), if_neg (by decide), if_neg hC, if_pos hcrc]

/-! ## Reading the fields back from the buffer -/

theorem index_from_end (b : List Byte) (k : Nat) (h1 : 1 ≤ k) (h2 : k ≤ b.length) :
    index b (len b - k) = .ok (b.getD (b.length - k) 0) := by
  rw [index_ok b _ (by simp only [len]; omega) (by simp only [len]; omega)]
  congr 2
  simp only [len]; omega

theorem slice_to_end (b : List Byte) (lo k : Nat) (h : lo + k ≤ b.length) :
    slice b lo (len b - k) = .ok ((b.drop lo).take (b.length - (lo + k))) := by
  rw [slice_ok b _ _ (by omega) (by simp only [len]; omega) (by simp only [len]; omega)]
  congr 2
  · simp only [len]; omega

theorem Frame.unmarshal_ok_fields (b : List Byte) (f g : Frame)
    (h : Frame.UnmarshalBinary b f = (.ok (), g)) :
    36 ≤ b.length ∧
    g = ⟨b.getD 3 0, some (Header.ofWire ((b.drop 4).take 24)),
      (b.drop 28).take (b.length - 36), b.getD (b.length - 4) 0⟩ := by
  have hb : 36 ≤ b.length := by
    by_contra hn
    rw [Frame.unmarshal_short b f (by omega)] at h
    simp at h
  refine ⟨hb, ?_⟩
  rw [Frame.unmarshal_long b f hb] at h
  split at h
  · simp at h
  split at h
  · simp at h
  split at h
  · simp at h
  split at h
  · simp at h
  split at h
  · simp at h
  split at h
  · simp at h
  split at h
  · simp at h
  split at h
  · simp at h
  simp only [Prod.mk.injEq, true_and] at h
  exact h.symm

/-! ## The FIP Frame codec -/

namespace fip

theorem orAssign_eight (x0 x1 x2 x3 x4 x5 x6 x7 x8 x9 m : Byte) (c : Bool) :
    orAssignIf c [x0, x1, x2, x3, x4, x5, x6, x7, x8, x9] 8 m =
      .ok [x0, x1, x2, x3, x4, x5, x6, x7, if c = true then x8 ||| m else x8, x9] := by
  cases c <;> simp [orAssignIf, orAssign, index, store, ok_bind, pure_eq_ok]

theorem orAssign_nine (x0 x1 x2 x3 x4 x5 x6 x7 x8 x9 m : Byte) (c : Bool) :
    orAssignIf c [x0, x1, x2, x3, x4, x5, x6, x7, x8, x9] 9 m =
      .ok [x0, x1, x2, x3, x4, x5, x6, x7, x8, if c = true then x9 ||| m else x9] := by
  cases c <;> simp [orAssignIf, orAssign, index, store, ok_bind, pure_eq_ok]

theorem make_frameLen : make frameLen = .ok [0, 0, 0, 0, 0, 0, 0, 0, 0, 0] := by
  simp [make, frameLen]

/-- The bytes `fip.Frame.MarshalBinary` builds for a Frame of version 1, as the code
computes them. -/
theorem fip_marshal_steps (pc : U16) (sc : Byte) (dl : U16) (a b c d e : Bool) :
    Frame.MarshalBinary ⟨1, pc, sc, dl, a, b, c, d, e⟩ =
      .ok [(1 : Byte) <<< 4, 0, toByte (pc.val >>> 8), toByte pc.val, 0, sc,
        toByte (dl.val >>> 8), toByte dl.val,
        if b = true then (if a = true then (0 : Byte) ||| 1 <<< 7 else 0) ||| 1 <<< 6 else
          if a = true then (0 : Byte) ||| 1 <<< 7 else 0,
        if e = true then (if d = true then (if c = true then (0 : Byte) ||| 1 <<< 2 else 0) ||| 1 <<< 1
            else if c = true then (0 : Byte) ||| 1 <<< 2 else 0) ||| 1
          else if d = true then (if c = true then (0 : Byte) ||| 1 <<< 2 else 0) ||| 1 <<< 1
            else if c = true then (0 : Byte) ||| 1 <<< 2 else 0] := by
  have e1 : store [0, 0, 0, 0, 0, 0, 0, 0, 0, 0] 0 ((1 : Byte) <<< 4) =
      .ok [(1 : Byte) <<< 4, 0, 0, 0, 0, 0, 0, 0, 0, 0] := by simp [store]
  have e2 : window [(1 : Byte) <<< 4, 0, 0, 0, 0, 0, 0, 0, 0, 0] 2 4 (fun w => BigEndian.PutUint16 w pc) =
      .ok [(1 : Byte) <<< 4, 0, toByte (pc.val >>> 8), toByte pc.val, 0, 0, 0, 0, 0, 0] := by simp [window, slice, splice, PutUint16_two, ok_bind, pure_eq_ok]
  have e3 : store [(1 : Byte) <<< 4, 0, toByte (pc.val >>> 8), toByte pc.val, 0, 0, 0, 0, 0, 0] 5 sc =
      .ok [(1 : Byte) <<< 4, 0, toByte (pc.val >>> 8), toByte pc.val, 0, sc, 0, 0, 0, 0] := by simp [store]
  have e4 : window [(1 : Byte) <<< 4, 0, toByte (pc.val >>> 8), toByte pc.val, 0, sc, 0, 0, 0, 0] 6 8 (fun w => BigEndian.PutUint16 w dl) =
      .ok [(1 : Byte) <<< 4, 0, toByte (pc.val >>> 8), toByte pc.val, 0, sc, toByte (dl.val >>> 8), toByte dl.val, 0, 0] := by simp [window, slice, splice, PutUint16_two, ok_bind, pure_eq_ok]
  have hv : ¬ ((1 : Byte) ≠ fip.Version) := by decide
  unfold Frame.MarshalBinary
  dsimp only
  rw [if_neg hv, make_frameLen, ok_bind, e1, ok_bind, e2, ok_bind, e3, ok_bind, e4, ok_bind,
    orAssign_eight, ok_bind, orAssign_eight, ok_bind, orAssign_nine, ok_bind, orAssign_nine, ok_bind,
    orAssign_nine, ok_bind]
  rfl

theorem fip_marshal_wire (pc : U16) (sc : Byte) (dl : U16) (a b c d e : Bool) :
    Frame.MarshalBinary ⟨1, pc, sc, dl, a, b, c, d, e⟩ =
      .ok (Frame.wire ⟨1, pc, sc, dl, a, b, c, d, e⟩) := by
  rw [fip_marshal_steps]
  have h1 : ∀ v : U16, toByte (v.val >>> 8) = toByte (v.val / 256) := by
    intro v; rw [Nat.shiftRight_eq_div_pow]
  have h2 : ∀ v : U16, toByte v.val = toByte (v.val % 256) := by
    intro v; apply Fin.ext; simp [toByte_val]
  simp only [Frame.wire, h1]
  rw [h2 pc, h2 dl]
  cases a <;> cases b <;> cases c <;> cases d <;> cases e <;> rfl

theorem fip_marshal_wrong_version (f : Frame) (h : f.Version ≠ 1) :
    f.MarshalBinary = .error .ErrInvalidFrame := by
  have h1 : f.Version ≠ fip.Version := h
  unfold Frame.MarshalBinary
  rw [if_pos h1]

end fip


namespace fip

theorem take_two_drop (b : List Byte) (k : Nat) (h : k + 2 ≤ b.length) :
    (b.drop k).take 2 = [b.getD k 0, b.getD (k + 1) 0] := by
  have h1 : k < b.length := by omega
  have h2 : k + 1 < b.length := by omega
  rw [List.drop_eq_getElem_cons h1, List.drop_eq_getElem_cons h2,
    List.getD_eq_getElem _ _ h1, List.getD_eq_getElem _ _ h2]
  rfl

theorem fip_unmarshal_short (b : List Byte) (f : Frame) (hb : b.length < 10) :
    Frame.UnmarshalBinary b f = (.error .ErrUnexpectedEOF, f) := by
  unfold Frame.UnmarshalBinary
  rw [Meth.returnIf_bind, if_pos]
  simp only [len, frameLen]
  omega

theorem fip_unmarshal_long (b : List Byte) (f : Frame) (hb : 10 ≤ b.length) :
    Frame.UnmarshalBinary b f =
      if ((b.getD 0 0 &&& 0xf0) >>> 4) ≠ fip.Version then (.error .ErrInvalidFrame, f)
      else if b.getD 0 0 &&& 0x0f ≠ 0 then (.error .ErrInvalidFrame, f)
      else if b.getD 1 0 ≠ 0 then (.error .ErrInvalidFrame, f)
      else if b.getD 4 0 ≠ 0 then (.error .ErrInvalidFrame, f)
      else if b.getD 8 0 &&& 0x3f ≠ 0 then (.error .ErrInvalidFrame, f)
      else if b.getD 9 0 &&& 0xf8 ≠ 0 then (.error .ErrInvalidFrame, f)
      else (.ok (), ⟨(b.getD 0 0 &&& 0xf0) >>> 4,
        toU16 ((b.getD 3 0).val ||| (b.getD 2 0).val <<< 8),
        b.getD 5 0,
        toU16 ((b.getD 7 0).val ||| (b.getD 6 0).val <<< 8),
        decide (b.getD 8 0 &&& 0x80 ≠ 0), decide (b.getD 8 0 &&& 0x40 ≠ 0),
        decide (b.getD 9 0 &&& 0x04 ≠ 0), decide (b.getD 9 0 &&& 0x02 ≠ 0),
        decide (b.getD 9 0 &&& 0x01 ≠ 0)⟩) := by
  have hlt : ¬ (len b < frameLen) := by simp only [len, frameLen]; omega
  have i0 : index b 0 = .ok (b.getD 0 0) := index_ok b 0 (by omega) (by omega)
  have i1 : index b 1 = .ok (b.getD 1 0) := index_ok b 1 (by omega) (by omega)
  have i4 : index b 4 = .ok (b.getD 4 0) := index_ok b 4 (by omega) (by omega)
  have i5 : index b 5 = .ok (b.getD 5 0) := index_ok b 5 (by omega) (by omega)
  have i8 : index b 8 = .ok (b.getD 8 0) := index_ok b 8 (by omega) (by omega)
  have i9 : index b 9 = .ok (b.getD 9 0) := index_ok b 9 (by omega) (by omega)
  have s2 : slice b 2 4 = .ok [b.getD 2 0, b.getD 3 0] := by
    rw [slice_ok b 2 4 (by omega) (by omega) (by omega)]
    exact congrArg Except.ok (take_two_drop b 2 (by omega))
  have s6 : slice b 6 8 = .ok [b.getD 6 0, b.getD 7 0] := by
    rw [slice_ok b 6 8 (by omega) (by omega) (by omega)]
    exact congrArg Except.ok (take_two_drop b 6 (by omega))
  unfold Frame.UnmarshalBinary
  rw [Meth.returnIf_bind, if_neg hlt, i0, Meth.lift_ok_bind, Meth.pure_bind, Meth.returnIf_bind,
    Meth.lift_ok_bind, Meth.returnIf_bind, i1, Meth.lift_ok_bind, Meth.returnIf_bind,
    i4, Meth.lift_ok_bind, Meth.returnIf_bind, i8, Meth.lift_ok_bind, Meth.returnIf_bind,
    i9, Meth.lift_ok_bind, Meth.returnIf_bind, Meth.assign_bind,
    s2, Meth.lift_ok_bind, Uint16_two, Meth.lift_ok_bind, Meth.assign_bind]
  dsimp only
  rw [i5, Meth.lift_ok_bind, Meth.assign_bind]
  dsimp only
  rw [s6, Meth.lift_ok_bind, Uint16_two, Meth.lift_ok_bind, Meth.assign_bind]
  dsimp only
  rw [Meth.lift_ok_bind, Meth.assign_bind]
  dsimp only
  rw [Meth.lift_ok_bind, Meth.assign_bind]
  dsimp only
  rw [Meth.lift_ok_bind, Meth.assign_bind]
  dsimp only
  rw [Meth.lift_ok_bind, Meth.assign_bind]
  dsimp only
  rw [Meth.lift_ok_bind, Meth.assign_apply]

end fip

/-! ## Claims about the Frame codec -/

/-- C1: for every Frame with a Header, decoding its encoding succeeds and yields the same
SOF, the same EOF, the same Header, and the payload followed by `(4 - len % 4) % 4` zero
bytes; the decoded payload is the original one exactly when its length is a multiple of
four. -/
theorem C1_roundtrip_pads_payload (sof eof : Byte) (h : Header) (p : List Byte) (g : Frame) :
    ∃ b, Frame.MarshalBinary ⟨sof, some h, p, eof⟩ = .ok b ∧
      Frame.UnmarshalBinary b g =
        (.ok (), ⟨sof, some h, p ++ List.replicate ((4 - p.length % 4) % 4) 0, eof⟩) ∧
      (p ++ List.replicate ((4 - p.length % 4) % 4) 0 = p ↔ p.length % 4 = 0) := by
  refine ⟨_, Frame.marshal_some sof eof h p, Frame.unmarshal_wire sof eof h p g, ?_⟩
  rw [List.append_right_eq_self, List.replicate_eq_nil_iff]
  omega

/-- C2: the encoding of a Frame with a Header is the SOF word, the 24 header bytes, the
payload, zero bytes up to the next multiple of four, the big-endian CRC-32 of header,
payload and padding, and the EOF word; its length is `4 + 24 + P' + 4 + 4` with
`P' = ceil(len / 4) * 4`, at least 36 and a multiple of four. -/
theorem C2_marshal_layout (sof eof : Byte) (h : Header) (p : List Byte) :
    ∃ hb b, h.MarshalBinary = .ok hb ∧ Frame.MarshalBinary ⟨sof, some h, p, eof⟩ = .ok b ∧
      b = [0, 0, 0, sof] ++ hb ++ p ++ List.replicate ((p.length + 3) / 4 * 4 - p.length) 0 ++
        be32 (crc32.ChecksumIEEE
          (hb ++ p ++ List.replicate ((p.length + 3) / 4 * 4 - p.length) 0)) ++
        [eof, 0, 0, 0] ∧
      b.length = 4 + 24 + (p.length + 3) / 4 * 4 + 4 + 4 ∧ 36 ≤ b.length ∧ b.length % 4 = 0 := by
  have hpad : padLen p.length = (p.length + 3) / 4 * 4 - p.length := by
    unfold padLen; omega
  have hlen := Frame.wire_total_length sof eof h p
  refine ⟨_, _, Header.marshal_eq h, Frame.marshal_some sof eof h p, ?_, ?_, ?_, ?_⟩
  · simp [Frame.wire, padded, hpad]
  · rw [hlen, hpad]; omega
  · omega
  · rw [hlen, hpad]; omega

/-- C3: on a buffer of at least 36 bytes whose six reserved bytes are zero and whose
payload region is word aligned, decoding fails with `ErrInvalidCRC` exactly when the
big-endian value stored at `b[len-8 .. len-4)` differs from the CRC-32 of `b[4 .. len-8)`,
and succeeds exactly when they are equal. -/
theorem C3_invalid_crc_iff (b : List Byte) (f : Frame) (hlen : 36 ≤ b.length)
    (h0 : b.getD 0 0 = 0) (h1 : b.getD 1 0 = 0) (h2 : b.getD 2 0 = 0)
    (h3 : b.getD (b.length - 3) 0 = 0) (h4 : b.getD (b.length - 2) 0 = 0)
    (h5 : b.getD (b.length - 1) 0 = 0) (hal : (b.length - 36) % 4 = 0) :
    ((Frame.UnmarshalBinary b f).1 = .error .ErrInvalidCRC ↔
      beNat ((b.drop (b.length - 8)).take 4) ≠
        (crc32.ChecksumIEEE ((b.drop 4).take (b.length - 12))).val) ∧
    ((Frame.UnmarshalBinary b f).1 = .ok () ↔
      beNat ((b.drop (b.length - 8)).take 4) =
        (crc32.ChecksumIEEE ((b.drop 4).take (b.length - 12))).val) := by
  have hw : ((b.drop (b.length - 8)).take 4).length = 4 := by simp; omega
  have key : beNat ((b.drop (b.length - 8)).take 4) =
      (crc32.ChecksumIEEE ((b.drop 4).take (b.length - 12))).val ↔
      ofBe32 ((b.drop (b.length - 8)).take 4) =
        crc32.ChecksumIEEE ((b.drop 4).take (b.length - 12)) := by
    rw [← ofBe32_val_of_length _ hw]
    exact Fin.ext_iff.symm
  rw [Frame.unmarshal_valid b f hlen h0 h1 h2 h3 h4 h5 hal]
  simp only [ne_eq, key]
  by_cases hc : ofBe32 ((b.drop (b.length - 8)).take 4) =
      crc32.ChecksumIEEE ((b.drop 4).take (b.length - 12))
  · rw [if_neg (not_not.mpr hc)]
    simp [hc]
  · rw [if_pos hc]
    simp [hc]

set_option maxRecDepth 100000 in
/-- C3 at the test case "invalid CRC": the stored value `ff ff ff ff` is not the CRC. -/
theorem C3_invalid_crc_iff_witness :
    (Frame.UnmarshalBinary ([0, 0, 0, 0x2e] ++ List.replicate 24 0 ++
      [0xff, 0xff, 0xff, 0xff, 0x42, 0, 0, 0]) Frame.zero).1 = .error .ErrInvalidCRC :=
  (C3_invalid_crc_iff ([0, 0, 0, 0x2e] ++ List.replicate 24 0 ++
      [0xff, 0xff, 0xff, 0xff, 0x42, 0, 0, 0]) Frame.zero (by decide) (by decide) (by decide)
    (by decide) (by decide) (by decide) (by decide) (by decide)).1.mpr (by decide)

/-- C5: on a buffer of at least 36 bytes, decoding fails with `ErrInvalidFrame` exactly
when one of the three leading or three trailing reserved bytes is not zero or the
payload region length `len - 36` is not a multiple of four, whatever the CRC field holds. -/
theorem C5_invalid_frame_iff (b : List Byte) (f : Frame) (hlen : 36 ≤ b.length) :
    (Frame.UnmarshalBinary b f).1 = .error .ErrInvalidFrame ↔
      (b.getD 0 0 ≠ 0 ∨ b.getD 1 0 ≠ 0 ∨ b.getD 2 0 ≠ 0 ∨ b.getD (b.length - 3) 0 ≠ 0 ∨
        b.getD (b.length - 2) 0 ≠ 0 ∨ b.getD (b.length - 1) 0 ≠ 0 ∨
        (b.length - 36) % 4 ≠ 0) := by
  constructor
  · intro h
    by_contra hn
    simp only [not_or, ne_eq, Decidable.not_not] at hn
    obtain ⟨h0, h1, h2, h3, h4, h5, h6⟩ := hn
    rw [Frame.unmarshal_valid b f hlen h0 h1 h2 h3 h4 h5 h6] at h
    split at h <;> simp at h
  · intro h
    rw [Frame.unmarshal_invalidFrame b f hlen h]

set_option maxRecDepth 100000 in
/-- C5 at the test case "EOF reserved byte 3 not empty", whose CRC field is not valid
either: the reserved byte is reported. -/
theorem C5_invalid_frame_iff_witness :
    (Frame.UnmarshalBinary (List.replicate 32 0 ++ [0x42, 0, 1, 0]) Frame.zero).1 =
      .error .ErrInvalidFrame :=
  (C5_invalid_frame_iff (List.replicate 32 0 ++ [0x42, 0, 1, 0]) Frame.zero
    (by decide)).mpr (by decide)

set_option maxRecDepth 100000 in
/-- C6: decoding fails with `io.ErrUnexpectedEOF` exactly when the buffer is shorter than
36 bytes, and the 36-byte buffer of the test case "OK Frame, empty header and payload"
(zero reserved bytes, zero header, CRC `a3 c1 ca 20`) is accepted. -/
theorem C6_unexpected_eof_iff :
    (∀ (b : List Byte) (f : Frame),
      (Frame.UnmarshalBinary b f).1 = .error .ErrUnexpectedEOF ↔ b.length < 36) ∧
    (emptyWire.length = 36 ∧ (emptyWire.drop 4).take 24 = List.replicate 24 0 ∧
      ∀ f : Frame, (Frame.UnmarshalBinary emptyWire f).1 = .ok ()) := by
  refine ⟨fun b f => ⟨fun h => ?_, fun h => ?_⟩, by decide, by decide, fun f => ?_⟩
  · by_contra hn
    rcases Frame.unmarshal_outcome b f (by omega) with h1 | h1 | h1 <;> rw [h1] at h <;>
      simp at h
  · rw [Frame.unmarshal_short b f h]
  · have hv := Frame.unmarshal_valid emptyWire f (by decide) (by decide) (by decide) (by decide)
      (by decide) (by decide) (by decide) (by decide)
    rw [hv, if_neg (by decide)]

/-- C4: for every Frame with a Header, inverting any single bit of its encoding `b` at a
byte offset between 4 and `len(b) - 9` (header or padded payload) makes decoding fail
with `ErrInvalidCRC`. -/
theorem C4_bit_flip_rejected (f : Frame) (hd : Header) (b : List Byte) (g : Frame) (i k : Nat)
    (hh : f.Header = some hd) (hb : f.MarshalBinary = .ok b) (hi : 4 ≤ i)
    (hi2 : i + 9 ≤ b.length) (hk : k < 8) :
    Frame.UnmarshalBinary (flipBit b i k) g = (.error .ErrInvalidCRC, g) := by
  obtain ⟨sof, h0, p, eof⟩ := f
  simp only at hh
  subst hh
  rw [Frame.marshal_some, Except.ok.injEq] at hb
  subst hb
  exact Frame.unmarshal_flipped sof eof hd p g i k hi hi2 hk

set_option maxRecDepth 100000 in
/-- C4 at the test Frame: bit 0 of the first payload byte (offset 28) inverted. -/
theorem C4_bit_flip_rejected_witness :
    testFrame.MarshalBinary = .ok testWire ∧
    Frame.UnmarshalBinary (flipBit testWire 28 0) Frame.zero =
      (.error .ErrInvalidCRC, Frame.zero) :=
  ⟨by decide, C4_bit_flip_rejected testFrame testHeader testWire Frame.zero 28 0 rfl
    (by decide) (by decide) (by decide) (by decide)⟩

/-- C7: when decoding succeeds the Frame has `SOF = b[3]`, `EOF = b[len-4]`, the Header
that `Header.UnmarshalBinary` reads from `b[4:28]`, and `b[28 : len-8]` verbatim as its
Payload, of length `len - 36`. -/
theorem C7_decoded_fields (b : List Byte) (f g : Frame)
    (h : Frame.UnmarshalBinary b f = (.ok (), g)) :
    index b 3 = .ok g.SOF ∧ index b (len b - 4) = .ok g.EOF ∧
    (∃ hs hd, slice b 4 28 = .ok hs ∧
      Header.UnmarshalBinary hs Header.zero = (.ok (), hd) ∧ g.Header = some hd) ∧
    slice b 28 (len b - 8) = .ok g.Payload ∧
    (g.Payload.length : Int) = len b - 36 := by
  obtain ⟨hb, rfl⟩ := Frame.unmarshal_ok_fields b f g h
  refine ⟨index_ok b 3 (by omega) (by omega), index_from_end b 4 (by omega) (by omega),
    ⟨(b.drop 4).take 24, Header.ofWire ((b.drop 4).take 24), ?_, ?_, rfl⟩, ?_, ?_⟩
  · rw [slice_ok b _ _ (by omega) (by omega) (by omega)]; rfl
  · exact Header.unmarshal_of_length _ _ (by simp; omega)
  · exact slice_to_end b 28 8 (by omega)
  · simp only [len, List.length_take, List.length_drop]; omega

set_option maxRecDepth 100000 in
/-- C7 at the test case "OK Frame": the payload keeps its padding byte. -/
theorem C7_decoded_fields_witness :
    Frame.UnmarshalBinary testWire Frame.zero = (.ok (), ⟨0x2e, some testHeader, [1, 2, 3, 0], 0x42⟩) ∧
    slice testWire 28 (len testWire - 8) = .ok [1, 2, 3, 0] :=
  ⟨by decide, (C7_decoded_fields testWire Frame.zero ⟨0x2e, some testHeader, [1, 2, 3, 0], 0x42⟩
    (by decide)).2.2.2.1⟩

/-- C8: re-encoding the Frame decoded from an accepted buffer succeeds and returns that
buffer. -/
theorem C8_marshal_inverts_unmarshal (b : List Byte) (f g : Frame)
    (h : Frame.UnmarshalBinary b f = (.ok (), g)) : g.MarshalBinary = .ok b :=
  Frame.marshal_of_unmarshal b f g h

set_option maxRecDepth 100000 in
/-- C8 at the test case "OK Frame". -/
theorem C8_marshal_inverts_unmarshal_witness :
    Frame.MarshalBinary ⟨0x2e, some testHeader, [1, 2, 3, 0], 0x42⟩ = .ok testWire :=
  C8_marshal_inverts_unmarshal testWire Frame.zero _ (by decide)

set_option maxRecDepth 100000 in
/-- C9 as stated fails: the test Frame has a payload of three bytes, and encoding,
decoding and encoding it again gives the bytes of the first encoding. -/
theorem C9_counterexample :
    Frame.reencode testFrame = testFrame.MarshalBinary ∧ testFrame.Header = some testHeader ∧
      ¬ (testFrame.Payload.length % 4 = 0) := by
  decide

/-- C9 amended: for every Frame with a Header, encoding, decoding and encoding again gives
the bytes of the first encoding, whatever the payload length; the decoded Frame itself
equals the original exactly when the payload length is a multiple of four. -/
theorem C9_reencode_idempotent (sof eof : Byte) (h : Header) (p : List Byte) :
    Frame.reencode ⟨sof, some h, p, eof⟩ = Frame.MarshalBinary ⟨sof, some h, p, eof⟩ ∧
    ∃ b g, Frame.MarshalBinary ⟨sof, some h, p, eof⟩ = .ok b ∧
      Frame.UnmarshalBinary b Frame.zero = (.ok (), g) ∧
      (g = ⟨sof, some h, p, eof⟩ ↔ p.length % 4 = 0) := by
  have hm := Frame.marshal_some sof eof h p
  have hu := Frame.unmarshal_wire sof eof h p Frame.zero
  constructor
  · unfold Frame.reencode
    rw [hm]
    simp only [hu]
    exact Frame.marshal_of_unmarshal _ _ _ hu
  · refine ⟨_, _, hm, hu, ?_⟩
    simp only [Frame.mk.injEq, true_and, and_true, padded, List.append_right_eq_self,
      List.replicate_eq_nil_iff, padLen]
    omega

/-- C10: `Frame.MarshalBinary` fails exactly when the Header is nil, then with
`ErrInvalidFrame` and no bytes; with a Header present it returns bytes, so no index or
slice bound used on the way is out of range. -/
theorem C10_marshal_fails_iff_no_header (f : Frame) :
    (f.Header = none ∧ f.MarshalBinary = .error .ErrInvalidFrame) ∨
    (∃ h b, f.Header = some h ∧ f.MarshalBinary = .ok b) := by
  obtain ⟨sof, h, p, eof⟩ := f
  cases h with
  | none => exact Or.inl ⟨rfl, rfl⟩
  | some h => exact Or.inr ⟨h, _, rfl, Frame.marshal_some sof eof h p⟩

/-- C11: `Frame.UnmarshalBinary` either succeeds or returns one of `io.ErrUnexpectedEOF`,
`ErrInvalidFrame`, `ErrInvalidCRC` and leaves every field of its receiver as it was. -/
theorem C11_unmarshal_atomic (b : List Byte) (f : Frame) :
    (Frame.UnmarshalBinary b f).1 = .ok () ∨
    ((Frame.UnmarshalBinary b f).2 = f ∧
      ((Frame.UnmarshalBinary b f).1 = .error .ErrUnexpectedEOF ∨
       (Frame.UnmarshalBinary b f).1 = .error .ErrInvalidFrame ∨
       (Frame.UnmarshalBinary b f).1 = .error .ErrInvalidCRC)) := by
  by_cases hb : b.length < 36
  · rw [Frame.unmarshal_short b f hb]
    exact Or.inr ⟨rfl, Or.inl rfl⟩
  · rcases Frame.unmarshal_outcome b f (by omega) with h | h | h
    · rw [h]; exact Or.inr ⟨rfl, Or.inr (Or.inl rfl)⟩
    · rw [h]; exact Or.inr ⟨rfl, Or.inr (Or.inr rfl)⟩
    · exact Or.inl h

set_option maxRecDepth 100000 in
/-- C12: the test Frame (SOF `2e`, EOF `42`, the test Header, payload `01 02 03`) encodes
to the 40 bytes of `testWire`, with CRC `09 4c bc e8`; the Frame with a zero Header, zero
SOF and EOF and no payload encodes to 36 bytes whose CRC field is `a3 c1 ca 20`. -/
theorem C12_test_vectors :
    testFrame.MarshalBinary = .ok testWire ∧ testWire.length = 40 ∧
    (testWire.drop 32).take 4 = [0x09, 0x4c, 0xbc, 0xe8] ∧
    Frame.MarshalBinary ⟨0, some Header.zero, [], 0⟩ =
      .ok (List.replicate 28 0 ++ [0xa3, 0xc1, 0xca, 0x20] ++ List.replicate 4 0) := by
  decide

/-- C13: two Frames with the same Header and Payload encode to buffers of the same length
that agree at every offset other than 3 (SOF) and `len - 4` (EOF), in particular on the
four CRC bytes. -/
theorem C13_crc_ignores_sof_eof (sof1 eof1 sof2 eof2 : Byte) (h : Header) (p : List Byte) :
    ∃ b1 b2, Frame.MarshalBinary ⟨sof1, some h, p, eof1⟩ = .ok b1 ∧
      Frame.MarshalBinary ⟨sof2, some h, p, eof2⟩ = .ok b2 ∧
      b1.length = b2.length ∧
      (∀ i, i ≠ 3 → i ≠ b1.length - 4 → b1[i]? = b2[i]?) ∧
      (b1.drop (b1.length - 8)).take 4 = (b2.drop (b2.length - 8)).take 4 := by
  have hset : Frame.wire sof2 eof2 h p =
      ((Frame.wire sof1 eof1 h p).set 3 sof2).set ((Frame.wire sof1 eof1 h p).length - 4) eof2 := by
    have hl := Frame.wire_total_length sof1 eof1 h p
    have e1 : Frame.wire sof1 eof1 h p =
        [0, 0, 0] ++ sof1 :: (h.wire ++ padded p ++
          be32 (crc32.ChecksumIEEE (h.wire ++ padded p)) ++ [eof1, 0, 0, 0]) := by
      simp [Frame.wire]
    have e2 : [0, 0, 0] ++ sof2 :: (h.wire ++ padded p ++
          be32 (crc32.ChecksumIEEE (h.wire ++ padded p)) ++ [eof1, 0, 0, 0]) =
        ([0, 0, 0, sof2] ++ h.wire ++ padded p ++
          be32 (crc32.ChecksumIEEE (h.wire ++ padded p))) ++ eof1 :: [0, 0, 0] := by
      simp
    rw [hl]
    rw [e1, set_segment _ _ _ _ _ (by simp), e2,
      set_segment _ _ _ _ _ (by simp [be32, Header.wire_length, padded_length]; omega)]
    simp [Frame.wire]
  have hlen : (Frame.wire sof1 eof1 h p).length = (Frame.wire sof2 eof2 h p).length := by
    rw [Frame.wire_total_length, Frame.wire_total_length]
  refine ⟨_, _, Frame.marshal_some sof1 eof1 h p, Frame.marshal_some sof2 eof2 h p, hlen, ?_, ?_⟩
  · intro i h3 h4
    rw [hset, List.getElem?_set_ne (Ne.symm h4), List.getElem?_set_ne (Ne.symm h3)]
  · have hl1 := Frame.wire_total_length sof1 eof1 h p
    have hl2 := Frame.wire_total_length sof2 eof2 h p
    have v1 : Frame.wire sof1 eof1 h p = ([0, 0, 0, sof1] ++ h.wire ++ padded p) ++
        be32 (crc32.ChecksumIEEE (h.wire ++ padded p)) ++ [eof1, 0, 0, 0] := by
      simp [Frame.wire]
    have v2 : Frame.wire sof2 eof2 h p = ([0, 0, 0, sof2] ++ h.wire ++ padded p) ++
        be32 (crc32.ChecksumIEEE (h.wire ++ padded p)) ++ [eof2, 0, 0, 0] := by
      simp [Frame.wire]
    rw [hl1, hl2, v1, v2,
      take_drop_segment ([0, 0, 0, sof1] ++ h.wire ++ padded p)
        (be32 (crc32.ChecksumIEEE (h.wire ++ padded p))) [eof1, 0, 0, 0] _ 4
        (by simp [Header.wire_length, padded_length]; omega) rfl,
      take_drop_segment ([0, 0, 0, sof2] ++ h.wire ++ padded p)
        (be32 (crc32.ChecksumIEEE (h.wire ++ padded p))) [eof2, 0, 0, 0] _ 4
        (by simp [Header.wire_length, padded_length]; omega) rfl]

/-! ## Claims about the Header codec -/

/-- C14: for every Header, decoding its encoding succeeds and yields that Header, equal in
all twelve fields. -/
theorem C14_header_roundtrip (h h0 : Header) :
    ∃ b, h.MarshalBinary = .ok b ∧ Header.UnmarshalBinary b h0 = (.ok (), h) := by
  refine ⟨h.wire, Header.marshal_eq h, ?_⟩
  rw [Header.unmarshal_of_length _ _ (Header.wire_length h), Header.ofWire_wire]

/-- C15: `Header.MarshalBinary` never fails and returns exactly 24 bytes: bytes 0 to 13
are RoutingControl, DestinationID, Priority, SourceID, Type, FrameControl, SequenceID and
DataFieldControl, bytes 14-15, 16-17 and 18-19 are SequenceCount, OriginatorExchangeID and
ResponderExchangeID big-endian, bytes 20-23 are Parameter big-endian. -/
theorem C15_header_layout (h : Header) :
    ∃ b, h.MarshalBinary = .ok b ∧ b.length = 24 ∧
      b.take 14 = [h.RoutingControl,
        h.DestinationID.a0, h.DestinationID.a1, h.DestinationID.a2,
        h.Priority,
        h.SourceID.a0, h.SourceID.a1, h.SourceID.a2,
        h.Type_,
        h.FrameControl.a0, h.FrameControl.a1, h.FrameControl.a2,
        h.SequenceID, h.DataFieldControl] ∧
      beNat ((b.drop 14).take 2) = h.SequenceCount.val ∧
      beNat ((b.drop 16).take 2) = h.OriginatorExchangeID.val ∧
      beNat ((b.drop 18).take 2) = h.ResponderExchangeID.val ∧
      beNat ((b.drop 20).take 4) = h.Parameter.val := by
  have h16 : ∀ v : U16, beNat [toByte (v.val >>> 8), toByte v.val] = v.val := by
    intro v
    simp only [beNat, List.foldl_cons, List.foldl_nil, toByte_val, Nat.shiftRight_eq_div_pow]
    have := v.isLt
    omega
  refine ⟨h.wire, Header.marshal_eq h, rfl, rfl, ?_, ?_, ?_, ?_⟩
  · exact h16 h.SequenceCount
  · exact h16 h.OriginatorExchangeID
  · exact h16 h.ResponderExchangeID
  · exact beNat_be32 h.Parameter

/-- C16: `Header.UnmarshalBinary` fails with `io.ErrUnexpectedEOF` exactly when the buffer
is not 24 bytes long, shorter or longer, and accepts every buffer of 24 bytes. -/
theorem C16_header_length_exact (b : List Byte) (h0 : Header) :
    ((Header.UnmarshalBinary b h0).1 = .error .ErrUnexpectedEOF ↔ b.length ≠ 24) ∧
    ((Header.UnmarshalBinary b h0).1 = .ok () ↔ b.length = 24) := by
  by_cases hb : b.length = 24
  · rw [Header.unmarshal_of_length b h0 hb]
    simp [hb]
  · rw [Header.unmarshal_of_length_ne b h0 hb]
    simp [hb]

/-! ## Claims about the FIP Frame codec -/

namespace fip

set_option maxRecDepth 100000 in
theorem byte_masks (x : Byte) :
    (((x &&& 0xf0) >>> 4 ≠ fip.Version) ↔ x.val / 16 ≠ 1) ∧
    ((x &&& 0x0f ≠ 0) ↔ x.val % 16 ≠ 0) ∧
    ((x &&& 0x3f ≠ 0) ↔ x.val % 64 ≠ 0) ∧
    ((x &&& 0xf8 ≠ 0) ↔ x.val / 8 ≠ 0) ∧
    (x.val / 16 = 1 → (x &&& 0xf0) >>> 4 = 1) := by
  revert x
  decide

set_option maxRecDepth 100000 in
theorem byte_flags (x : Byte) :
    decide (x &&& 0x80 ≠ 0) = x.val.testBit 7 ∧ decide (x &&& 0x40 ≠ 0) = x.val.testBit 6 ∧
    decide (x &&& 0x04 ≠ 0) = x.val.testBit 2 ∧ decide (x &&& 0x02 ≠ 0) = x.val.testBit 1 ∧
    decide (x &&& 0x01 ≠ 0) = x.val.testBit 0 := by
  revert x
  decide

end fip

/-- C17: `fip.Frame.MarshalBinary` fails exactly when Version is not the supported
version 1, then with `ErrInvalidFrame` and no bytes; with Version 1 it succeeds whatever
the other fields are. -/
theorem C17_fip_marshal_fails_iff_version (f : fip.Frame) :
    (f.Version ≠ 1 ∧ f.MarshalBinary = .error .ErrInvalidFrame) ∨
    (f.Version = 1 ∧ ∃ b, f.MarshalBinary = .ok b) := by
  by_cases h : f.Version = 1
  · obtain ⟨v, pc, sc, dl, a, b, c, d, e⟩ := f
    simp only at h
    subst h
    exact Or.inr ⟨rfl, _, fip.fip_marshal_wire pc sc dl a b c d e⟩
  · exact Or.inl ⟨h, fip.fip_marshal_wrong_version f h⟩

set_option maxRecDepth 100000 in
/-- C18: a FIP Frame of version 1 encodes to exactly ten bytes: `10`, `00`, ProtocolCode
big-endian, `00`, Subcode, DescriptorListLength big-endian, the byte `80` if FPMA plus `40`
if SPMA, the byte `04` if AvailableForLogin plus `02` if Solicited plus `01` if FCF; the
test Frame encodes to `10 00 00 01 00 01 00 01 c0 07`. -/
theorem C18_fip_layout (pc : U16) (sc : Byte) (dl : U16) (a b c d e : Bool) :
    fip.Frame.MarshalBinary ⟨1, pc, sc, dl, a, b, c, d, e⟩ =
      .ok [0x10, 0, toByte (pc.val / 256), toByte (pc.val % 256), 0, sc,
        toByte (dl.val / 256), toByte (dl.val % 256),
        toByte ((if a then 0x80 else 0) + (if b then 0x40 else 0)),
        toByte ((if c then 0x04 else 0) + (if d then 0x02 else 0) + (if e then 0x01 else 0))] ∧
    fip.Frame.MarshalBinary ⟨1, 1, 1, 1, true, true, true, true, true⟩ =
      .ok [0x10, 0x00, 0x00, 0x01, 0x00, 0x01, 0x00, 0x01, 0xc0, 0x07] :=
  ⟨fip.fip_marshal_wire pc sc dl a b c d e, by decide⟩

set_option maxRecDepth 100000 in
/-- C19: `fip.Frame.UnmarshalBinary` fails with `io.ErrUnexpectedEOF` exactly when the
buffer is shorter than ten bytes, whatever it holds; the ten bytes of the test vector are
accepted. -/
theorem C19_fip_unexpected_eof_iff :
    (∀ (b : List Byte) (f : fip.Frame),
      (fip.Frame.UnmarshalBinary b f).1 = .error .ErrUnexpectedEOF ↔ b.length < 10) ∧
    (fip.testWire.length = 10 ∧
      ∀ f : fip.Frame, fip.Frame.UnmarshalBinary fip.testWire f = (.ok (), fip.testFrame)) := by
  refine ⟨fun b f => ⟨fun h => ?_, fun h => ?_⟩, rfl, fun f => ?_⟩
  · by_contra hn
    rw [fip.fip_unmarshal_long b f (by omega)] at h
    repeat' split at h
    all_goals simp at h
  · rw [fip.fip_unmarshal_short b f h]
  · rw [fip.fip_unmarshal_long _ f (by decide), if_neg (by decide), if_neg (by decide),
      if_neg (by decide), if_neg (by decide), if_neg (by decide), if_neg (by decide)]
    decide

/-- C20: on a buffer of at least ten bytes, decoding fails with `ErrInvalidFrame` exactly
when the high nibble of `b[0]` is not 1, or its low nibble is not zero, or `b[1]` or `b[4]`
is not zero, or one of the low six bits of `b[8]` or of the high five bits of `b[9]` is
set; otherwise it succeeds with Version 1, ProtocolCode and DescriptorListLength read
big-endian from `b[2:4]` and `b[6:8]`, Subcode `b[5]`, and the flags bit 7 and 6 of `b[8]`
and bit 2, 1 and 0 of `b[9]`. -/
theorem C20_fip_invalid_frame_iff (b : List Byte) (f : fip.Frame) (hlen : 10 ≤ b.length) :
    ((fip.Frame.UnmarshalBinary b f).1 = .error .ErrInvalidFrame ↔
      ((b.getD 0 0).val / 16 ≠ 1 ∨ (b.getD 0 0).val % 16 ≠ 0 ∨ b.getD 1 0 ≠ 0 ∨
        b.getD 4 0 ≠ 0 ∨ (b.getD 8 0).val % 64 ≠ 0 ∨ (b.getD 9 0).val / 8 ≠ 0)) ∧
    (((b.getD 0 0).val / 16 ≠ 1 ∨ (b.getD 0 0).val % 16 ≠ 0 ∨ b.getD 1 0 ≠ 0 ∨
        b.getD 4 0 ≠ 0 ∨ (b.getD 8 0).val % 64 ≠ 0 ∨ (b.getD 9 0).val / 8 ≠ 0) ∨
      fip.Frame.UnmarshalBinary b f = (.ok (),
        { Version := 1
          ProtocolCode := toU16 ((b.getD 2 0).val * 256 + (b.getD 3 0).val)
          Subcode := b.getD 5 0
          DescriptorListLength := toU16 ((b.getD 6 0).val * 256 + (b.getD 7 0).val)
          FlagFPMA := (b.getD 8 0).val.testBit 7
          FlagSPMA := (b.getD 8 0).val.testBit 6
          FlagAvailableForLogin := (b.getD 9 0).val.testBit 2
          FlagSolicited := (b.getD 9 0).val.testBit 1
          FlagFCF := (b.getD 9 0).val.testBit 0 })) := by
  obtain ⟨m0, m1, _, _, m4⟩ := fip.byte_masks (b.getD 0 0)
  obtain ⟨_, _, m2, _, _⟩ := fip.byte_masks (b.getD 8 0)
  obtain ⟨_, _, _, m3, _⟩ := fip.byte_masks (b.getD 9 0)
  obtain ⟨f7, f6, _, _, _⟩ := fip.byte_flags (b.getD 8 0)
  obtain ⟨_, _, f2, f1, f0⟩ := fip.byte_flags (b.getD 9 0)
  rw [fip.fip_unmarshal_long b f hlen]
  by_cases c0 : (b.getD 0 0 &&& 0xf0) >>> 4 ≠ fip.Version
  · rw [if_pos c0]
    have hbad := m0.mp c0
    exact ⟨⟨fun _ => Or.inl hbad, fun _ => rfl⟩, Or.inl (Or.inl hbad)⟩
  rw [if_neg c0]
  by_cases c1 : b.getD 0 0 &&& 0x0f ≠ 0
  · rw [if_pos c1]
    have hbad := m1.mp c1
    exact ⟨⟨fun _ => Or.inr (Or.inl hbad), fun _ => rfl⟩, Or.inl (Or.inr (Or.inl hbad))⟩
  rw [if_neg c1]
  by_cases c2 : b.getD 1 0 ≠ 0
  · rw [if_pos c2]
    exact ⟨⟨fun _ => Or.inr (Or.inr (Or.inl c2)), fun _ => rfl⟩,
      Or.inl (Or.inr (Or.inr (Or.inl c2)))⟩
  rw [if_neg c2]
  by_cases c3 : b.getD 4 0 ≠ 0
  · rw [if_pos c3]
    exact ⟨⟨fun _ => Or.inr (Or.inr (Or.inr (Or.inl c3))), fun _ => rfl⟩,
      Or.inl (Or.inr (Or.inr (Or.inr (Or.inl c3))))⟩
  rw [if_neg c3]
  by_cases c4 : b.getD 8 0 &&& 0x3f ≠ 0
  · rw [if_pos c4]
    have hbad := m2.mp c4
    exact ⟨⟨fun _ => Or.inr (Or.inr (Or.inr (Or.inr (Or.inl hbad)))), fun _ => rfl⟩,
      Or.inl (Or.inr (Or.inr (Or.inr (Or.inr (Or.inl hbad)))))⟩
  rw [if_neg c4]
  by_cases c5 : b.getD 9 0 &&& 0xf8 ≠ 0
  · rw [if_pos c5]
    have hbad := m3.mp c5
    exact ⟨⟨fun _ => Or.inr (Or.inr (Or.inr (Or.inr (Or.inr hbad)))), fun _ => rfl⟩,
      Or.inl (Or.inr (Or.inr (Or.inr (Or.inr (Or.inr hbad)))))⟩
  rw [if_neg c5]
  have n0 : ¬ ((b.getD 0 0).val / 16 ≠ 1) := fun hh => c0 (m0.mpr hh)
  have n1 : ¬ ((b.getD 0 0).val % 16 ≠ 0) := fun hh => c1 (m1.mpr hh)
  have n4 : ¬ ((b.getD 8 0).val % 64 ≠ 0) := fun hh => c4 (m2.mpr hh)
  have n5 : ¬ ((b.getD 9 0).val / 8 ≠ 0) := fun hh => c5 (m3.mpr hh)
  have hv : (b.getD 0 0 &&& 0xf0) >>> 4 = 1 := m4 (not_not.mp n0)
  have e1 : toU16 ((b.getD 3 0).val ||| (b.getD 2 0).val <<< 8) =
      toU16 ((b.getD 2 0).val * 256 + (b.getD 3 0).val) := by
    rw [be16_val, Nat.add_comm]
  have e2 : toU16 ((b.getD 7 0).val ||| (b.getD 6 0).val <<< 8) =
      toU16 ((b.getD 6 0).val * 256 + (b.getD 7 0).val) := by
    rw [be16_val, Nat.add_comm]
  refine ⟨⟨fun hh => ?_, fun hh => ?_⟩, Or.inr ?_⟩
  · exact absurd hh (by simp)
  · rcases hh with h | h | h | h | h | h
    · exact absurd h n0
    · exact absurd h n1
    · exact absurd h c2
    · exact absurd h c3
    · exact absurd h n4
    · exact absurd h n5
  · simp only [hv, f7, f6, f2, f1, f0, e1, e2]

set_option maxRecDepth 100000 in
/-- C20 at the test vector "OK": the ten bytes decode to the test Frame. -/
theorem C20_fip_invalid_frame_iff_witness :
    fip.Frame.UnmarshalBinary fip.testWire ⟨0, 0, 0, 0, false, false, false, false, false⟩ =
      (.ok (), fip.testFrame) :=
  (C20_fip_invalid_frame_iff fip.testWire ⟨0, 0, 0, 0, false, false, false, false, false⟩
    (by decide)).2.resolve_left (by decide)

/-! ## The table of `ParseOperation` -/

namespace fip

/-- The cases of `ParseOperation` on the numeric values of its arguments. -/
theorem parse_cases (p : U16) (s : Byte) :
    ParseOperation p s =
      if p.val = 1 ∧ s.val = 1 then .OperationDiscoverySolicitation
      else if p.val = 1 ∧ s.val = 2 then .OperationDiscoveryAdvertisement
      else if p.val = 2 ∧ s.val = 1 then .OperationVirtualLinkInstantiationRequest
      else if p.val = 2 ∧ s.val = 2 then .OperationVirtualLinkInstantiationReply
      else if p.val = 3 ∧ s.val = 1 then .OperationKeepAlive
      else if p.val = 3 ∧ s.val = 2 then .OperationClearVirtualLinks
      else if p.val = 4 ∧ s.val = 1 then .OperationVLANRequest
      else if p.val = 4 ∧ s.val = 2 then .OperationVLANNotification
      else if 0xfff8 ≤ p.val ∧ p.val ≤ 0xfffe then .OperationVendorSpecific
      else .OperationReserved := by
  unfold ParseOperation
  simp only [Fin.ext_iff, ge_iff_le, Fin.le_def]
  rfl

/-- Each Operation is returned for exactly the pairs of its row of the table. -/
theorem parse_table (p : U16) (s : Byte) :
    (ParseOperation p s = .OperationDiscoverySolicitation ↔ p.val = 1 ∧ s.val = 1) ∧
    (ParseOperation p s = .OperationDiscoveryAdvertisement ↔ p.val = 1 ∧ s.val = 2) ∧
    (ParseOperation p s = .OperationVirtualLinkInstantiationRequest ↔ p.val = 2 ∧ s.val = 1) ∧
    (ParseOperation p s = .OperationVirtualLinkInstantiationReply ↔ p.val = 2 ∧ s.val = 2) ∧
    (ParseOperation p s = .OperationKeepAlive ↔ p.val = 3 ∧ s.val = 1) ∧
    (ParseOperation p s = .OperationClearVirtualLinks ↔ p.val = 3 ∧ s.val = 2) ∧
    (ParseOperation p s = .OperationVLANRequest ↔ p.val = 4 ∧ s.val = 1) ∧
    (ParseOperation p s = .OperationVLANNotification ↔ p.val = 4 ∧ s.val = 2) ∧
    (ParseOperation p s = .OperationVendorSpecific ↔ 0xfff8 ≤ p.val ∧ p.val ≤ 0xfffe) ∧
    (ParseOperation p s = .OperationReserved ↔
      ¬ ((1 ≤ p.val ∧ p.val ≤ 4) ∧ (s.val = 1 ∨ s.val = 2)) ∧
      ¬ (0xfff8 ≤ p.val ∧ p.val ≤ 0xfffe)) := by
  rw [parse_cases p s]
  by_cases h1 : p.val = 1 ∧ s.val = 1
  · rw [if_pos h1]
    refine ⟨?_, ?_, ?_, ?_, ?_, ?_, ?_, ?_, ?_, ?_⟩ <;> constructor <;> intro h <;>
      first | rfl | (cases h; done) | omega
  rw [if_neg h1]
  by_cases h2 : p.val = 1 ∧ s.val = 2
  · rw [if_pos h2]
    refine ⟨?_, ?_, ?_, ?_, ?_, ?_, ?_, ?_, ?_, ?_⟩ <;> constructor <;> intro h <;>
      first | rfl | (cases h; done) | omega
  rw [if_neg h2]
  by_cases h3 : p.val = 2 ∧ s.val = 1
  · rw [if_pos h3]
    refine ⟨?_, ?_, ?_, ?_, ?_, ?_, ?_, ?_, ?_, ?_⟩ <;> constructor <;> intro h <;>
      first | rfl | (cases h; done) | omega
  rw [if_neg h3]
  by_cases h4 : p.val = 2 ∧ s.val = 2
  · rw [if_pos h4]
    refine ⟨?_, ?_, ?_, ?_, ?_, ?_, ?_, ?_, ?_, ?_⟩ <;> constructor <;> intro h <;>
      first | rfl | (cases h; done) | omega
  rw [if_neg h4]
  by_cases h5 : p.val = 3 ∧ s.val = 1
  · rw [if_pos h5]
    refine ⟨?_, ?_, ?_, ?_, ?_, ?_, ?_, ?_, ?_, ?_⟩ <;> constructor <;> intro h <;>
      first | rfl | (cases h; done) | omega
  rw [if_neg h5]
  by_cases h6 : p.val = 3 ∧ s.val = 2
  · rw [if_pos h6]
    refine ⟨?_, ?_, ?_, ?_, ?_, ?_, ?_, ?_, ?_, ?_⟩ <;> constructor <;> intro h <;>
      first | rfl | (cases h; done) | omega
  rw [if_neg h6]
  by_cases h7 : p.val = 4 ∧ s.val = 1
  · rw [if_pos h7]
    refine ⟨?_, ?_, ?_, ?_, ?_, ?_, ?_, ?_, ?_, ?_⟩ <;> constructor <;> intro h <;>
      first | rfl | (cases h; done) | omega
  rw [if_neg h7]
  by_cases h8 : p.val = 4 ∧ s.val = 2
  · rw [if_pos h8]
    refine ⟨?_, ?_, ?_, ?_, ?_, ?_, ?_, ?_, ?_, ?_⟩ <;> constructor <;> intro h <;>
      first | rfl | (cases h; done) | omega
  rw [if_neg h8]
  by_cases h9 : 0xfff8 ≤ p.val ∧ p.val ≤ 0xfffe
  · rw [if_pos h9]
    refine ⟨?_, ?_, ?_, ?_, ?_, ?_, ?_, ?_, ?_, ?_⟩ <;> constructor <;> intro h <;>
      first | rfl | (cases h; done) | omega
  rw [if_neg h9]
  refine ⟨?_, ?_, ?_, ?_, ?_, ?_, ?_, ?_, ?_, ?_⟩ <;> constructor <;> intro h <;>
    first | rfl | (cases h; done) | omega

end fip

/-! ## The FIP codec in both directions -/

namespace fip

theorem toU16_split (v : U16) :
    toU16 ((toByte (v.val % 256)).val ||| (toByte (v.val / 256)).val <<< 8) = v := by
  apply Fin.ext
  rw [toU16_val, be16_val, toByte_val, toByte_val]
  have := v.isLt
  omega

set_option maxRecDepth 100000 in
/-- The flag byte at offset 8 has no reserved bit set and carries FPMA and SPMA. -/
theorem flag_byte_eight (a b : Bool) :
    ¬ (toByte ((if a then 0x80 else 0) + (if b then 0x40 else 0)) &&& 0x3f ≠ 0) ∧
    decide (toByte ((if a then 0x80 else 0) + (if b then 0x40 else 0)) &&& 0x80 ≠ 0) = a ∧
    decide (toByte ((if a then 0x80 else 0) + (if b then 0x40 else 0)) &&& 0x40 ≠ 0) = b := by
  cases a <;> cases b <;> decide

set_option maxRecDepth 100000 in
/-- The flag byte at offset 9 has no reserved bit set and carries the three other flags. -/
theorem flag_byte_nine (c d e : Bool) :
    ¬ (toByte ((if c then 0x04 else 0) + (if d then 0x02 else 0) + (if e then 0x01 else 0)) &&&
      0xf8 ≠ 0) ∧
    decide (toByte ((if c then 0x04 else 0) + (if d then 0x02 else 0) + (if e then 0x01 else 0)) &&&
      0x04 ≠ 0) = c ∧
    decide (toByte ((if c then 0x04 else 0) + (if d then 0x02 else 0) + (if e then 0x01 else 0)) &&&
      0x02 ≠ 0) = d ∧
    decide (toByte ((if c then 0x04 else 0) + (if d then 0x02 else 0) + (if e then 0x01 else 0)) &&&
      0x01 ≠ 0) = e := by
  cases c <;> cases d <;> cases e <;> decide

set_option maxRecDepth 100000 in
/-- Decoding the ten bytes of a Frame of version 1 gives that Frame back. -/
theorem fip_unmarshal_wire (pc : U16) (sc : Byte) (dl : U16) (a b c d e : Bool) (g : Frame) :
    Frame.UnmarshalBinary (Frame.wire ⟨1, pc, sc, dl, a, b, c, d, e⟩) g =
      (.ok (), ⟨1, pc, sc, dl, a, b, c, d, e⟩) := by
  obtain ⟨r8, fa, fb⟩ := flag_byte_eight a b
  obtain ⟨r9, fc, fd, fe⟩ := flag_byte_nine c d e
  have v0 : ¬ (((0x10 : Byte) &&& 0xf0) >>> 4 ≠ fip.Version) := by decide
  have v1 : ¬ ((0x10 : Byte) &&& 0x0f ≠ 0) := by decide
  have v2 : ¬ ((0 : Byte) ≠ 0) := by decide
  have v3 : ((0x10 : Byte) &&& 0xf0) >>> 4 = 1 := by decide
  rw [fip_unmarshal_long _ g (by simp [Frame.wire])]
  simp only [Frame.wire, List.getD_cons_zero, List.getD_cons_succ, toU16_split]
  rw [if_neg v0, if_neg v1, if_neg v2, if_neg v2, if_neg r8, if_neg r9, fa, fb, fc, fd, fe, v3]

theorem getD_take (b : List Byte) (i n : Nat) (h : i < n) :
    (b.take n).getD i 0 = b.getD i 0 := by
  rw [List.getD_eq_getElem?_getD, List.getD_eq_getElem?_getD, List.getElem?_take_of_lt h]

theorem take_ten (b : List Byte) (h : 10 ≤ b.length) :
    b.take 10 = [b.getD 0 0, b.getD 1 0, b.getD 2 0, b.getD 3 0, b.getD 4 0, b.getD 5 0,
      b.getD 6 0, b.getD 7 0, b.getD 8 0, b.getD 9 0] := by
  apply List.ext_getElem
  · simp; omega
  · intro i h1 h2
    simp only [List.length_cons, List.length_nil] at h2
    rw [List.getElem_take]
    have hi : i < b.length := by omega
    interval_cases i <;> simp [List.getD_eq_getElem _ _, hi, h]

/-- Decoding reads the first ten bytes only. -/
theorem fip_unmarshal_take (b : List Byte) (f : Frame) (hb : 10 ≤ b.length) :
    Frame.UnmarshalBinary (b.take 10) f = Frame.UnmarshalBinary b f := by
  rw [fip_unmarshal_long b f hb, fip_unmarshal_long (b.take 10) f (by simp; omega)]
  simp only [getD_take b _ 10 (by decide : 0 < 10), getD_take b _ 10 (by decide : 1 < 10),
    getD_take b _ 10 (by decide : 2 < 10), getD_take b _ 10 (by decide : 3 < 10),
    getD_take b _ 10 (by decide : 4 < 10), getD_take b _ 10 (by decide : 5 < 10),
    getD_take b _ 10 (by decide : 6 < 10), getD_take b _ 10 (by decide : 7 < 10),
    getD_take b _ 10 (by decide : 8 < 10), getD_take b _ 10 (by decide : 9 < 10)]

set_option maxRecDepth 100000 in
/-- A byte whose high nibble is the version and whose low nibble is zero is `10`; a flag
byte without reserved bits is rebuilt from its flags. -/
theorem byte_rebuild (x : Byte) :
    ((x &&& 0xf0) >>> 4 = 1 → x &&& 0x0f = 0 → x = 0x10) ∧
    (x &&& 0x3f = 0 → toByte ((if decide (x &&& 0x80 ≠ 0) = true then 0x80 else 0) +
      (if decide (x &&& 0x40 ≠ 0) = true then 0x40 else 0)) = x) ∧
    (x &&& 0xf8 = 0 → toByte ((if decide (x &&& 0x04 ≠ 0) = true then 0x04 else 0) +
      (if decide (x &&& 0x02 ≠ 0) = true then 0x02 else 0) +
      (if decide (x &&& 0x01 ≠ 0) = true then 0x01 else 0)) = x) := by
  revert x
  decide

theorem toByte_be16_div (x y : Byte) :
    toByte ((toU16 (y.val ||| x.val <<< 8)).val / 256) = x := by
  have := toByte_be16_hi x y
  rwa [Nat.shiftRight_eq_div_pow] at this

theorem toByte_be16_mod (x y : Byte) :
    toByte ((toU16 (y.val ||| x.val <<< 8)).val % 256) = y := by
  have h : toByte ((toU16 (y.val ||| x.val <<< 8)).val % 256) =
      toByte (toU16 (y.val ||| x.val <<< 8)).val := by
    apply Fin.ext
    rw [toByte_val, toByte_val, Nat.mod_mod]
  rw [h, toByte_be16_lo]

/-- Re-encoding the Frame decoded from an accepted buffer gives its first ten bytes. -/
theorem fip_marshal_of_unmarshal (b : List Byte) (f g : Frame) (hb : 10 ≤ b.length)
    (h : Frame.UnmarshalBinary b f = (.ok (), g)) : g.MarshalBinary = .ok (b.take 10) := by
  rw [fip_unmarshal_long b f hb] at h
  by_cases c0 : (b.getD 0 0 &&& 0xf0) >>> 4 ≠ fip.Version
  · rw [if_pos c0] at h; exact absurd (congrArg Prod.fst h) (by simp)
  rw [if_neg c0] at h
  by_cases c1 : b.getD 0 0 &&& 0x0f ≠ 0
  · rw [if_pos c1] at h; exact absurd (congrArg Prod.fst h) (by simp)
  rw [if_neg c1] at h
  by_cases c2 : b.getD 1 0 ≠ 0
  · rw [if_pos c2] at h; exact absurd (congrArg Prod.fst h) (by simp)
  rw [if_neg c2] at h
  by_cases c3 : b.getD 4 0 ≠ 0
  · rw [if_pos c3] at h; exact absurd (congrArg Prod.fst h) (by simp)
  rw [if_neg c3] at h
  by_cases c4 : b.getD 8 0 &&& 0x3f ≠ 0
  · rw [if_pos c4] at h; exact absurd (congrArg Prod.fst h) (by simp)
  rw [if_neg c4] at h
  by_cases c5 : b.getD 9 0 &&& 0xf8 ≠ 0
  · rw [if_pos c5] at h; exact absurd (congrArg Prod.fst h) (by simp)
  rw [if_neg c5] at h
  have hv : (b.getD 0 0 &&& 0xf0) >>> 4 = 1 := not_not.mp c0
  have h0 : b.getD 0 0 = 0x10 := (byte_rebuild (b.getD 0 0)).1 hv (not_not.mp c1)
  have h8 := (byte_rebuild (b.getD 8 0)).2.1 (not_not.mp c4)
  have h9 := (byte_rebuild (b.getD 9 0)).2.2 (not_not.mp c5)
  have hg := (congrArg Prod.snd h).symm
  simp only at hg
  rw [hv] at hg
  rw [hg, fip_marshal_wire, take_ten b hb]
  simp only [Frame.wire, toByte_be16_div, toByte_be16_mod, h8, h9]
  rw [h0, not_not.mp c2, not_not.mp c3]

end fip

/-! ## Claims about `ParseOperation` and the codecs in both directions -/

/-- C21: `ParseOperation` is a total function of the protocol code `p` and subcode `s`
that returns each of the eight table Operations exactly for its pair, from (1,1)
DiscoverySolicitation to (4,2) VLANNotification, VendorSpecific exactly when
`0xfff8 ≤ p ≤ 0xfffe` whatever `s` is, and Reserved for every other pair, among them
(0x0000, 0x00) and every pair with `p = 0xffff`. -/
theorem C21_parse_operation_table (p : U16) (s : Byte) :
    ((fip.ParseOperation p s = .OperationDiscoverySolicitation ↔ p.val = 1 ∧ s.val = 1) ∧
     (fip.ParseOperation p s = .OperationDiscoveryAdvertisement ↔ p.val = 1 ∧ s.val = 2) ∧
     (fip.ParseOperation p s = .OperationVirtualLinkInstantiationRequest ↔
       p.val = 2 ∧ s.val = 1) ∧
     (fip.ParseOperation p s = .OperationVirtualLinkInstantiationReply ↔
       p.val = 2 ∧ s.val = 2) ∧
     (fip.ParseOperation p s = .OperationKeepAlive ↔ p.val = 3 ∧ s.val = 1) ∧
     (fip.ParseOperation p s = .OperationClearVirtualLinks ↔ p.val = 3 ∧ s.val = 2) ∧
     (fip.ParseOperation p s = .OperationVLANRequest ↔ p.val = 4 ∧ s.val = 1) ∧
     (fip.ParseOperation p s = .OperationVLANNotification ↔ p.val = 4 ∧ s.val = 2) ∧
     (fip.ParseOperation p s = .OperationVendorSpecific ↔ 0xfff8 ≤ p.val ∧ p.val ≤ 0xfffe) ∧
     (fip.ParseOperation p s = .OperationReserved ↔
       ¬ ((1 ≤ p.val ∧ p.val ≤ 4) ∧ (s.val = 1 ∨ s.val = 2)) ∧
       ¬ (0xfff8 ≤ p.val ∧ p.val ≤ 0xfffe))) ∧
    fip.ParseOperation 0x0001 0x01 = .OperationDiscoverySolicitation ∧
    fip.ParseOperation 0xfff8 0x01 = .OperationVendorSpecific ∧
    fip.ParseOperation 0x0000 0x00 = .OperationReserved ∧
    fip.ParseOperation 0xffff s = .OperationReserved := by
  refine ⟨fip.parse_table p s, by decide, by decide, by decide, ?_⟩
  have e : ((0xffff : U16)).val = 65535 := rfl
  refine (fip.parse_table 0xffff s).2.2.2.2.2.2.2.2.2.mpr ⟨fun h => ?_, fun h => ?_⟩
  · rw [e] at h
    omega
  · rw [e] at h
    omega

/-- C22: for every FIP Frame of version 1, encoding succeeds with ten bytes, decoding them
succeeds and yields a Frame equal to the original in all nine fields, and no reserved bit
of the encoding is set. -/
theorem C22_fip_roundtrip (f g : fip.Frame) (hv : f.Version = 1) :
    ∃ b, f.MarshalBinary = .ok b ∧ b.length = 10 ∧
      fip.Frame.UnmarshalBinary b g = (.ok (), f) ∧
      (b.getD 0 0).val % 16 = 0 ∧ b.getD 1 0 = 0 ∧ b.getD 4 0 = 0 ∧
      (b.getD 8 0).val % 64 = 0 ∧ (b.getD 9 0).val / 8 = 0 := by
  obtain ⟨v, pc, sc, dl, a, b, c, d, e⟩ := f
  simp only at hv
  subst hv
  obtain ⟨r8, _, _⟩ := fip.flag_byte_eight a b
  obtain ⟨r9, _, _, _⟩ := fip.flag_byte_nine c d e
  refine ⟨_, fip.fip_marshal_wire pc sc dl a b c d e, rfl,
    fip.fip_unmarshal_wire pc sc dl a b c d e g, ?_, rfl, rfl, ?_, ?_⟩
  · simp only [fip.Frame.wire, List.getD_cons_zero]
    decide
  · exact not_not.mp fun hh => r8 ((fip.byte_masks _).2.2.1.mpr hh)
  · exact not_not.mp fun hh => r9 ((fip.byte_masks _).2.2.2.1.mpr hh)

/-- C22 at the test Frame of `fip/frame_test.go`. -/
theorem C22_fip_roundtrip_witness :
    ∃ b, fip.testFrame.MarshalBinary = .ok b ∧ b.length = 10 ∧
      fip.Frame.UnmarshalBinary b ⟨0, 0, 0, 0, false, false, false, false, false⟩ =
        (.ok (), fip.testFrame) ∧
      (b.getD 0 0).val % 16 = 0 ∧ b.getD 1 0 = 0 ∧ b.getD 4 0 = 0 ∧
      (b.getD 8 0).val % 64 = 0 ∧ (b.getD 9 0).val / 8 = 0 :=
  C22_fip_roundtrip fip.testFrame ⟨0, 0, 0, 0, false, false, false, false, false⟩ rfl

/-- C23: on a buffer `b` of at least ten bytes, of any greater length, decoding gives the
same result and the same receiver as decoding `b[0:10]`, and when `b` is accepted,
re-encoding the decoded Frame succeeds and returns exactly `b[0:10]`; a Header buffer
longer than 24 bytes, by contrast, is rejected. -/
theorem C23_fip_reads_first_ten (b : List Byte) (f : fip.Frame) (hlen : 10 ≤ b.length) :
    slice b 0 10 = .ok (b.take 10) ∧ (b.take 10).length = 10 ∧
    fip.Frame.UnmarshalBinary b f = fip.Frame.UnmarshalBinary (b.take 10) f ∧
    (∀ g, fip.Frame.UnmarshalBinary b f = (.ok (), g) → g.MarshalBinary = .ok (b.take 10)) ∧
    (∀ (c : List Byte) (h0 : Header), 24 < c.length →
      Header.UnmarshalBinary c h0 = (.error .ErrUnexpectedEOF, h0)) := by
  refine ⟨?_, ?_, (fip.fip_unmarshal_take b f hlen).symm,
    fun g hg => fip.fip_marshal_of_unmarshal b f g hlen hg,
    fun c h0 hc => Header.unmarshal_of_length_ne c h0 (by omega)⟩
  · rw [slice_ok b 0 10 (by omega) (by omega) (by omega)]
    rfl
  · rw [List.length_take]
    omega

set_option maxRecDepth 100000 in
/-- C23 at the test vector followed by two more bytes: the twelve bytes are accepted and
the decoded Frame encodes to the first ten. -/
theorem C23_fip_reads_first_ten_witness :
    fip.Frame.UnmarshalBinary (fip.testWire ++ [0xff, 0x5a])
      ⟨0, 0, 0, 0, false, false, false, false, false⟩ = (.ok (), fip.testFrame) ∧
    fip.testFrame.MarshalBinary = .ok fip.testWire :=
  ⟨by decide, ((C23_fip_reads_first_ten (fip.testWire ++ [0xff, 0x5a])
    ⟨0, 0, 0, 0, false, false, false, false, false⟩ (by decide)).2.2.2.1 fip.testFrame
    (by decide)).trans (by decide)⟩

/-- C24: for every buffer `b` of exactly 24 bytes, decoding succeeds and encoding the
decoded Header returns exactly `b`; with the round trip in the other direction the Header
codec is a bijection between Header values and 24-byte buffers. Hence the Header decode
that `Frame.UnmarshalBinary` performs on `b[4:28]` never fails, and `Frame.UnmarshalBinary`
returns no error other than `io.ErrUnexpectedEOF`, `ErrInvalidFrame` and `ErrInvalidCRC`. -/
theorem C24_header_bijection (b : List Byte) (h0 : Header) (hb : b.length = 24) :
    (∃ h, Header.UnmarshalBinary b h0 = (.ok (), h) ∧ h.MarshalBinary = .ok b ∧
      (∀ h2 : Header, h2.MarshalBinary = .ok b → h2 = h) ∧
      (∀ c : List Byte, c.length = 24 → Header.UnmarshalBinary c h0 = (.ok (), h) → c = b)) ∧
    (∀ h : Header, ∃ c, c.length = 24 ∧ h.MarshalBinary = .ok c ∧
      Header.UnmarshalBinary c h0 = (.ok (), h)) ∧
    (∀ c : List Byte, 36 ≤ c.length → ∃ hs h, slice c 4 28 = .ok hs ∧ hs.length = 24 ∧
      Header.UnmarshalBinary hs Header.zero = (.ok (), h)) ∧
    (∀ (c : List Byte) (f : Frame),
      (Frame.UnmarshalBinary c f).1 = .ok () ∨
      (Frame.UnmarshalBinary c f).1 = .error .ErrUnexpectedEOF ∨
      (Frame.UnmarshalBinary c f).1 = .error .ErrInvalidFrame ∨
      (Frame.UnmarshalBinary c f).1 = .error .ErrInvalidCRC) := by
  refine ⟨⟨Header.ofWire b, Header.unmarshal_of_length b h0 hb, ?_, ?_, ?_⟩, ?_, ?_, ?_⟩
  · rw [Header.marshal_eq, Header.wire_ofWire b hb]
  · intro h2 hm
    rw [Header.marshal_eq, Except.ok.injEq] at hm
    rw [← hm, Header.ofWire_wire]
  · intro c hc hu
    rw [Header.unmarshal_of_length c h0 hc, Prod.mk.injEq] at hu
    rw [← Header.wire_ofWire c hc, hu.2, Header.wire_ofWire b hb]
  · intro h
    refine ⟨h.wire, Header.wire_length h, Header.marshal_eq h, ?_⟩
    rw [Header.unmarshal_of_length _ _ (Header.wire_length h), Header.ofWire_wire]
  · intro c hc
    have hl : ((c.drop 4).take 24).length = 24 := by
      rw [List.length_take, List.length_drop]
      omega
    refine ⟨(c.drop 4).take 24, Header.ofWire ((c.drop 4).take 24), ?_, hl,
      Header.unmarshal_of_length _ _ hl⟩
    rw [slice_ok c 4 28 (by omega) (by omega) (by omega)]
    rfl
  · intro c f
    by_cases hc : c.length < 36
    · rw [Frame.unmarshal_short c f hc]
      exact Or.inr (Or.inl rfl)
    · rcases Frame.unmarshal_outcome c f (by omega) with h | h | h
      · rw [h]; exact Or.inr (Or.inr (Or.inl rfl))
      · rw [h]; exact Or.inr (Or.inr (Or.inr rfl))
      · exact Or.inl h

/-- C24 at the 24 bytes `ff`: they decode to a Header that encodes to the same bytes. -/
theorem C24_header_bijection_witness :
    ∃ h, Header.UnmarshalBinary (List.replicate 24 0xff) Header.zero = (.ok (), h) ∧
      h.MarshalBinary = .ok (List.replicate 24 0xff) :=
  (C24_header_bijection (List.replicate 24 0xff) Header.zero (by decide)).1.imp
    fun _ hh => ⟨hh.1, hh.2.1⟩

end Fibrechannel
